import Mathlib

/-!
Shallow embedding of the multi-tier caching engine (`CachingService`) of the
repository: JavaScript values with truthiness, the two cache tiers, the
pending-promise deduplication table, TTL jitter, chunked batch population and
write-back, and transaction-driven invalidation.  The definitions below are
transcribed from the source file; asynchronous code is rendered as explicit
state passing over a sequential interleaving, numbers as rationals (JS numbers
are exact on the integral and half-integral values that occur here), and
fallible code returns `Except`.
-/

/-- JavaScript values flowing through the cache, restricted to the JSON
scalars plus `undefined`; nested structures add nothing to the control flow
verified here. -/
inductive JSVal where
  | undef
  | jsnull
  | bool (b : Bool)
  | num (n : Rat)
  | str (s : String)
deriving DecidableEq

/-- JavaScript truthiness: `undefined`, `null`, `false`, `0` and the empty
string are falsy; every other value occurring in the model is truthy. -/
def JSVal.truthy : JSVal → Bool
  | .undef => false
  | .jsnull => false
  | .bool b => b
  | .num n => decide (n ≠ 0)
  | .str s => decide (s ≠ "")

deriving instance DecidableEq for Except

/-- One key's state in the remote store, abstracting the raw text payload kept
by the shared key-value store: `absent` (nothing stored for the key),
`val v` (a stored payload that deserializes to `v`; `JSON.stringify` output is
never the empty string, so such a payload is truthy as a raw string), or
`corrupt` (a stored non-empty payload on which `JSON.parse` throws). -/
inductive RemoteEntry where
  | absent
  | corrupt
  | val (v : JSVal)
deriving DecidableEq

/-- The remote tier as a snapshot: what one read of each key would return. -/
abbrev RStore := String → RemoteEntry

/-- The local tier: `LocalCacheService.getCacheValue` yields `undefined` for
an absent key, so absence is represented by `JSVal.undef`. -/
abbrev LStore := String → JSVal

/-- `CachingService.getCacheRemote`: read the raw payload (the wrapping
`executeWithPendingPromise` is the identity on the returned value and is
modelled separately below); `undefined` (absence) is returned as is, any other
payload goes through `JSON.parse`, whose failure on a corrupt payload is not
caught and propagates to the caller. -/
def getCacheRemote (remote : RStore) (key : String) : Except String JSVal :=
  match remote key with
  | .absent => .ok .undef
  | .corrupt => .error "SyntaxError: Unexpected token in JSON"
  | .val v => .ok v

/-- `CachingService.getCache`: return the local value when it is truthy,
otherwise fall through to the remote tier. -/
def getCache (localStore : LStore) (remote : RStore) (key : String) : Except String JSVal :=
  let value := localStore key
  if value.truthy then .ok value else getCacheRemote remote key

/-- The Pending Operation Table (`pendingPromises`): each in-flight promise is
collapsed to its settled outcome, which is what every awaiter receives. -/
abbrev PTable := String → Option (Except String JSVal)

/-- Observable effect of one `executeWithPendingPromise` call in the
sequential model: the value handed to the caller, the table while the
operation is in flight (between registration and the `finally`), and the
table after the call returns. -/
structure PendingOutcome where
  result : Except String JSVal
  duringTable : PTable
  finalTable : PTable

/-- `CachingService.executeWithPendingPromise`: an existing pending entry is
awaited and returned (the table is left to its owner); otherwise the operation
is registered, awaited, and the entry deleted in a `finally`, so the deletion
happens on success and on failure alike, and a failure is re-raised unchanged
to the caller. -/
def executeWithPendingPromise (table : PTable) (key : String) (op : Except String JSVal) :
    PendingOutcome :=
  match table key with
  | some pending => ⟨pending, table, table⟩
  | none =>
    let registered : PTable := fun k => if k = key then some op else table k
    ⟨op, registered, fun k => if k = key then none else registered k⟩

/-- `CachingService.spreadTtl`: above the 300-unit threshold, perturb `ttl` by
`sign * amount` where `sign = Math.round(r1) * 2 - 1` and
`amount = Math.floor(r2 * (ttl * 10 / 100))`, the draws `r1`, `r2` standing
for the two `Math.random()` calls; below the threshold return `ttl`
unchanged.  Mathlib's `round` is round-half-up on rationals, matching
`Math.round`. -/
def spreadTtl (r1 r2 : Rat) (ttl : Rat) : Rat :=
  let threshold : Rat := 300
  let spread : Rat := 10
  if ttl ≥ threshold then
    let sign : Int := round r1 * 2 - 1
    let amount : Int := ⌊r2 * (ttl * spread / 100)⌋
    ttl + (sign : Rat) * (amount : Rat)
  else
    ttl

section SpreadLemmas

/-- With the first draw in `[0, 1)`, the sign factor of `spreadTtl` is `1` or
`-1` (shared helper). -/
theorem spreadTtl_sign (r1 : Rat) (h1 : 0 ≤ r1) (h1' : r1 < 1) :
    round r1 * 2 - 1 = 1 ∨ round r1 * 2 - 1 = -1 := by
  have hround : round r1 = 0 ∨ round r1 = 1 := by
    rw [round_eq]
    have hlow : (0 : Int) ≤ ⌊r1 + 1 / 2⌋ := by
      apply Int.floor_nonneg.mpr
      linarith
    have hhigh : ⌊r1 + 1 / 2⌋ < (2 : Int) := by
      rw [Int.floor_lt]
      push_cast
      linarith
    omega
  omega

/-- With the second draw in `[0, 1)` and `ttl ≥ 0`, the amount factor of
`spreadTtl` lies in `[0, ttl / 10]` (shared helper). -/
theorem spreadTtl_amount_mem (r2 ttl : Rat) (h2 : 0 ≤ r2) (h2' : r2 < 1) (httl : 0 ≤ ttl) :
    (0 : Rat) ≤ (⌊r2 * (ttl * 10 / 100)⌋ : Int) ∧ ((⌊r2 * (ttl * 10 / 100)⌋ : Int) : Rat) ≤ ttl / 10 := by
  have hbase : (0 : Rat) ≤ ttl * 10 / 100 := by positivity
  constructor
  · exact_mod_cast Int.floor_nonneg.mpr (mul_nonneg h2 hbase)
  · calc ((⌊r2 * (ttl * 10 / 100)⌋ : Int) : Rat) ≤ r2 * (ttl * 10 / 100) := Int.floor_le _
      _ ≤ 1 * (ttl * 10 / 100) := mul_le_mul_of_nonneg_right (le_of_lt h2') hbase
      _ = ttl / 10 := by ring

/-- For draws in `[0, 1)` the perturbation of `spreadTtl` stays within 10% of
a nonnegative `ttl` (shared helper). -/
theorem spreadTtl_abs_sub_le (r1 r2 ttl : Rat)
    (h1 : 0 ≤ r1) (h1' : r1 < 1) (h2 : 0 ≤ r2) (h2' : r2 < 1) (httl : 0 ≤ ttl) :
    |spreadTtl r1 r2 ttl - ttl| ≤ ttl / 10 := by
  unfold spreadTtl
  by_cases h : ttl ≥ (300 : Rat)
  · simp only [h, if_true]
    obtain ⟨ham0, ham1⟩ := spreadTtl_amount_mem r2 ttl h2 h2' httl
    have ham0' : (0 : Rat) ≤ ((⌊r2 * (ttl * 10 / 100)⌋ : Int) : Rat) := by exact_mod_cast ham0
    rcases spreadTtl_sign r1 h1 h1' with hs | hs
    · rw [hs]
      have : ttl + ((1 : Int) : Rat) * ((⌊r2 * (ttl * 10 / 100)⌋ : Int) : Rat) - ttl
          = ((⌊r2 * (ttl * 10 / 100)⌋ : Int) : Rat) := by push_cast; ring
      rw [this, abs_of_nonneg ham0']
      exact ham1
    · rw [hs]
      have : ttl + ((-1 : Int) : Rat) * ((⌊r2 * (ttl * 10 / 100)⌋ : Int) : Rat) - ttl
          = -(((⌊r2 * (ttl * 10 / 100)⌋ : Int) : Rat)) := by push_cast; ring
      rw [this, abs_neg, abs_of_nonneg ham0']
      exact ham1
  · simp only [h, if_false]
    have : ttl - ttl = 0 := by ring
    rw [this, abs_zero]
    positivity

/-- Below the threshold `spreadTtl` is the identity (shared helper). -/
theorem spreadTtl_below (r1 r2 ttl : Rat) (h : ttl < 300) : spreadTtl r1 r2 ttl = ttl := by
  unfold spreadTtl
  simp [not_le.mpr h]

end SpreadLemmas

/-- One cache write: key, value and the TTL the write carries.  Used both for
local-tier writes and for the `['set', key, payload, 'ex', ttl]` commands sent
to the remote store. -/
structure SetCmd where
  key : String
  value : JSVal
  ttl : Rat
deriving DecidableEq

/-- The `if (!localTtl) localTtl = remoteTtl / 2` line of `getOrSetCache`:
an omitted `localTtl` (the `undefined` default) and a passed `0` are both
falsy and replaced by `remoteTtl / 2`; any other value is kept. -/
def effectiveLocalTtl (remoteTtl : Rat) : Option Rat → Rat
  | none => remoteTtl / 2
  | some t => if t = 0 then remoteTtl / 2 else t

/-- Observable outcome of one `getOrSetCache` call: the value handed to the
caller and the writes issued to each tier, in order. -/
structure GoscOutcome where
  value : Except String JSVal
  localWrites : List SetCmd
  remoteWrites : List SetCmd
deriving DecidableEq

/-- `CachingService.getOrSetCache`: default the local TTL, return a local
value unless it is `undefined`, otherwise read the remote tier (a hit other
than `undefined`/`null` is backfilled locally with `localTtl` and returned),
otherwise run the populate operation — under the deduplication key
`caching:set:<key>`, which in this sequential model is the identity on the
value — and write the result to the local tier if `localTtl > 0` and to the
remote tier if `remoteTtl > 0`. -/
def getOrSetCache (localStore : LStore) (remote : RStore) (key : String)
    (populate : Except String JSVal) (remoteTtl : Rat) (localTtlArg : Option Rat) :
    GoscOutcome :=
  let localTtl := effectiveLocalTtl remoteTtl localTtlArg
  let cachedValue := localStore key
  if cachedValue ≠ JSVal.undef then ⟨.ok cachedValue, [], []⟩
  else
    match getCacheRemote remote key with
    | .error e => ⟨.error e, [], []⟩
    | .ok cached =>
      if cached ≠ JSVal.undef ∧ cached ≠ JSVal.jsnull then
        ⟨.ok cached, [⟨key, cached, localTtl⟩], []⟩
      else
        match populate with
        | .error e => ⟨.error e, [], []⟩
        | .ok value =>
          ⟨.ok value,
            if localTtl > 0 then [⟨key, value, localTtl⟩] else [],
            if remoteTtl > 0 then [⟨key, value, remoteTtl⟩] else []⟩

/-- Remove a key from the local tier (`localCacheService.deleteCacheKey`). -/
def eraseLocal (localStore : LStore) (key : String) : LStore :=
  fun k => if k = key then .undef else localStore k

/-- Remove a key from the remote tier (the `DEL` command). -/
def eraseRemote (remote : RStore) (key : String) : RStore :=
  fun k => if k = key then .absent else remote k

/-- `CachingService.deleteInCache`: a key containing a wildcard is expanded by
the remote `KEYS` command (`keysCmd`, a snapshot of what the store would
enumerate) and every match is deleted from both tiers and accumulated; a plain
key is deleted from both tiers and pushed onto the result unconditionally —
the store's deletion count is never consulted.  Returns the reported key list
and the two updated tiers. -/
def deleteInCache (keysCmd : String → List String) (localStore : LStore) (remote : RStore)
    (key : String) : List String × LStore × RStore :=
  if key.data.contains '*' then
    (keysCmd key).foldl
      (fun acc k => (acc.1 ++ [k], eraseLocal acc.2.1 k, eraseRemote acc.2.2 k))
      ([], localStore, remote)
  else
    ([key], eraseLocal localStore key, eraseRemote remote key)

/-- The three transaction fields the Invalidation Manager consumes; the
decoded function name is `none` when the transaction data decodes to no
function (`getDataFunctionName()` returning `undefined`). -/
structure ShardTransaction where
  sender : String
  receiver : String
  dataFunctionName : Option String

/-- `CachingService.tryInvalidateTokenBalance`: on a transaction whose decoded
function name is `ESDTTransfer`, delete `tokens:<sender>` and
`tokens:<receiver>` through `deleteInCache` and accumulate the reported keys
into a local `invalidatedKeys` — which the function then discards, since the
final statement returns the empty list on every path. -/
def tryInvalidateTokenBalance (keysCmd : String → List String) (localStore : LStore)
    (remote : RStore) (transaction : ShardTransaction) : List String × LStore × RStore :=
  if transaction.dataFunctionName = some "ESDTTransfer" then
    let step1 := deleteInCache keysCmd localStore remote ("tokens:" ++ transaction.sender)
    let step2 := deleteInCache keysCmd step1.2.1 step1.2.2 ("tokens:" ++ transaction.receiver)
    ([], step2.2.1, step2.2.2)
  else
    ([], localStore, remote)

/-- One step of the `reduce` inside `CachingService.getChunks`: push `item`
onto the chunk at `index`, creating the chunk when `index` is beyond the
current chunks.  Since the chunk index `current / size` grows by at most one
per element starting from `0`, the out-of-range case only ever occurs with
`index` equal to the length, so appending one fresh chunk is exact. -/
def chunkPush (result : List (List α)) (index : Nat) (item : α) : List (List α) :=
  if h : index < result.length then
    result.set index (result.get ⟨index, h⟩ ++ [item])
  else
    result ++ [[item]]

/-- The `reduce` of `CachingService.getChunks`, with `current` the element
index supplied by `reduce`. -/
def getChunksGo (size : Nat) : List α → Nat → List (List α) → List (List α)
  | [], _, result => result
  | x :: xs, current, result => getChunksGo size xs (current + 1) (chunkPush result (current / size) x)

/-- `CachingService.getChunks(array, size)`: partition `array` into
consecutive chunks of `size` (the JS default `size = 25` is passed explicitly
at every call site of this model). -/
def getChunks (array : List α) (size : Nat) : List (List α) :=
  getChunksGo size array 0 []

/-- Structural specification of chunking, used to reason about `getChunks`:
peel off `size` elements at a time. -/
def chunksOf (size : Nat) : List α → List (List α)
  | [] => []
  | x :: xs => (x :: xs.take (size - 1)) :: chunksOf size (xs.drop (size - 1))
termination_by l => l.length
decreasing_by simp [List.length_drop]; omega

section ChunkLemmas

variable {α : Type _}

theorem chunkPush_cons (a : List α) (l : List (List α)) (n : Nat) (x : α) :
    chunkPush (a :: l) (n + 1) x = a :: chunkPush l n x := by
  unfold chunkPush
  by_cases h : n < l.length
  · rw [dif_pos (by simpa using Nat.succ_lt_succ h), dif_pos h]
    rfl
  · rw [dif_neg (by simpa using fun hh => h (Nat.lt_of_succ_lt_succ hh)), dif_neg h]
    rfl

theorem chunkPush_append (R S : List (List α)) (p : Nat) (x : α) :
    chunkPush (R ++ S) (R.length + p) x = R ++ chunkPush S p x := by
  induction R with
  | nil => simp
  | cons r R ih =>
    have hidx : (r :: R).length + p = (R.length + p) + 1 := by
      simp [List.length_cons]
      omega
    rw [hidx]
    show chunkPush (r :: (R ++ S)) ((R.length + p) + 1) x = r :: (R ++ chunkPush S p x)
    rw [chunkPush_cons, ih]

theorem getChunksGo_append {size : Nat} (hsize : 0 < size) :
    ∀ (xs : List α) (c : Nat) (R S : List (List α)),
      getChunksGo size xs (R.length * size + c) (R ++ S) = R ++ getChunksGo size xs c S := by
  intro xs
  induction xs with
  | nil => intro c R S; rfl
  | cons x xs ih =>
    intro c R S
    show getChunksGo size xs (R.length * size + c + 1)
        (chunkPush (R ++ S) ((R.length * size + c) / size) x)
      = R ++ getChunksGo size xs (c + 1) (chunkPush S (c / size) x)
    have hdiv : (R.length * size + c) / size = R.length + c / size := by
      rw [Nat.add_comm (R.length * size) c, Nat.add_mul_div_right _ _ hsize, Nat.add_comm]
    rw [hdiv, chunkPush_append, Nat.add_assoc]
    exact ih (c + 1) R _

theorem chunksOf_eq_single {size : Nat} (l : List α) (h1 : 0 < l.length) (h2 : l.length ≤ size) :
    chunksOf size l = [l] := by
  cases l with
  | nil => simp at h1
  | cons x xs =>
    have htake : xs.take (size - 1) = xs := by
      apply List.take_of_length_le
      simp at h2
      omega
    have hdrop : xs.drop (size - 1) = [] := by
      apply List.drop_eq_nil_of_le
      simp at h2
      omega
    rw [chunksOf, htake, hdrop, chunksOf]

theorem chunksOf_step {size : Nat} (hsize : 0 < size) (l : List α) (hne : l ≠ []) :
    chunksOf size l = l.take size :: chunksOf size (l.drop size) := by
  cases l with
  | nil => exact absurd rfl hne
  | cons x xs =>
    obtain ⟨s, rfl⟩ := Nat.exists_eq_succ_of_ne_zero (Nat.pos_iff_ne_zero.mp hsize)
    rw [chunksOf]
    simp [List.take_succ_cons, List.drop_succ_cons]

theorem chunksOf_flatten (size : Nat) (l : List α) : (chunksOf size l).flatten = l := by
  have H : ∀ n (l : List α), l.length ≤ n → (chunksOf size l).flatten = l := by
    intro n
    induction n with
    | zero =>
      intro l hl
      have : l = [] := List.length_eq_zero.mp (Nat.le_zero.mp hl)
      rw [this, chunksOf]
      rfl
    | succ n ih =>
      intro l hl
      cases l with
      | nil => rw [chunksOf]; rfl
      | cons x xs =>
        rw [chunksOf, List.flatten_cons,
          ih (xs.drop (size - 1)) (by simp [List.length_drop] at hl ⊢; omega)]
        simp [List.take_append_drop]
  exact H l.length l (le_refl _)

theorem chunksOf_mem_length {size : Nat} (l : List α) (c : List α)
    (hc : c ∈ chunksOf size l) : 0 < c.length ∧ c.length ≤ size - 1 + 1 := by
  have H : ∀ n (l : List α), l.length ≤ n → ∀ c ∈ chunksOf size l,
      0 < c.length ∧ c.length ≤ size - 1 + 1 := by
    intro n
    induction n with
    | zero =>
      intro l hl c hc
      have : l = [] := List.length_eq_zero.mp (Nat.le_zero.mp hl)
      rw [this, chunksOf] at hc
      simp at hc
    | succ n ih =>
      intro l hl c hc
      cases l with
      | nil => rw [chunksOf] at hc; simp at hc
      | cons x xs =>
        rw [chunksOf] at hc
        rcases List.mem_cons.mp hc with rfl | htail
        · refine ⟨by simp, ?_⟩
          simp only [List.length_cons, List.length_take]
          omega
        · exact ih (xs.drop (size - 1)) (by simp [List.length_drop] at hl ⊢; omega) c htail
  exact H l.length l (le_refl _) c hc

theorem getChunksGo_fill {size : Nat} (hsize : 0 < size) :
    ∀ (xs pre : List α), 0 < pre.length → pre.length ≤ size →
      getChunksGo size xs pre.length [pre] = chunksOf size (pre ++ xs) := by
  intro xs
  induction xs with
  | nil =>
    intro pre h1 h2
    show [pre] = chunksOf size (pre ++ [])
    rw [List.append_nil, chunksOf_eq_single pre h1 h2]
  | cons y ys ih =>
    intro pre h1 h2
    show getChunksGo size ys (pre.length + 1) (chunkPush [pre] (pre.length / size) y)
      = chunksOf size (pre ++ y :: ys)
    rcases Nat.lt_or_ge pre.length size with hlt | hge
    · have hdiv : pre.length / size = 0 := Nat.div_eq_of_lt hlt
      have hpush : chunkPush [pre] 0 y = [pre ++ [y]] := by
        unfold chunkPush
        rw [dif_pos (by simp)]
        rfl
      rw [hdiv, hpush]
      have hrec := ih (pre ++ [y]) (by simp) (by simp; omega)
      rw [List.length_append, List.length_singleton] at hrec
      rw [hrec, List.append_assoc]
      rfl
    · have heq : pre.length = size := le_antisymm h2 hge
      have hdiv : pre.length / size = 1 := by rw [heq]; exact Nat.div_self hsize
      have hpush : chunkPush [pre] 1 y = [pre] ++ [[y]] := by
        unfold chunkPush
        rw [dif_neg (by simp)]
      rw [hdiv, hpush]
      have hcur : pre.length + 1 = ([pre] : List (List α)).length * size + 1 := by
        simp [heq]
      rw [hcur, getChunksGo_append hsize]
      have hrec := ih [y] (by simp) (by simpa using hsize)
      rw [List.length_singleton] at hrec
      rw [hrec]
      rw [chunksOf_step hsize (pre ++ y :: ys) (by simp)]
      rw [← heq, List.take_left, List.drop_left]
      rfl

theorem getChunks_eq_chunksOf {size : Nat} (hsize : 0 < size) (array : List α) :
    getChunks array size = chunksOf size array := by
  cases array with
  | nil => simp [getChunks, getChunksGo, chunksOf]
  | cons x xs =>
    show getChunksGo size xs 1 (chunkPush [] 0 x) = chunksOf size (x :: xs)
    have hpush : chunkPush ([] : List (List α)) 0 x = [[x]] := by
      unfold chunkPush
      rw [dif_neg (by simp)]
      rfl
    rw [hpush]
    have := getChunksGo_fill hsize xs [x] (by simp) (by simpa using hsize)
    rw [List.length_singleton] at this
    rw [this]
    rfl

/-- The explicit shape of a 250-element chunking at size 100: three chunks of
100, 100 and 50 elements. -/
theorem chunksOf_100_of_length_250 (l : List α) (hl : l.length = 250) :
    chunksOf 100 l = [l.take 100, (l.drop 100).take 100, (l.drop 100).drop 100]
      ∧ (l.take 100).length = 100 ∧ ((l.drop 100).take 100).length = 100
      ∧ ((l.drop 100).drop 100).length = 50 := by
  have h1 : l ≠ [] := by
    intro h
    rw [h] at hl
    simp at hl
  have h2 : l.drop 100 ≠ [] := by
    intro h
    have := congrArg List.length h
    simp [List.length_drop, hl] at this
  have h3 : (l.drop 100).drop 100 ≠ [] := by
    intro h
    have := congrArg List.length h
    simp [List.length_drop, hl] at this
  refine ⟨?_, by simp [List.length_take, hl], by simp [List.length_take, List.length_drop, hl],
    by simp [List.length_drop, hl]⟩
  rw [chunksOf_step (by omega) l h1, chunksOf_step (by omega) (l.drop 100) h2,
    chunksOf_eq_single ((l.drop 100).drop 100) (by simp [List.length_drop, hl]) (by simp [List.length_drop, hl])]

end ChunkLemmas

/-- One entry of the array `asyncMGet` hands back, as `batchGetCache` maps it:
a missing key yields `null`, a stored payload is truthy as a raw string and
goes through `JSON.parse`, which throws on a corrupt payload. -/
def readEntry : RemoteEntry → Except String JSVal
  | .absent => .ok .jsnull
  | .corrupt => .error "SyntaxError: Unexpected token in JSON"
  | .val v => .ok v

/-- The value `readEntry` produces on a non-corrupt entry (helper for stating
lemmas about the clean path). -/
def readVal : RemoteEntry → JSVal
  | .absent => .jsnull
  | .corrupt => .undef
  | .val v => v

/-- One iteration of the `for (const chunkKeys of chunks)` loop of
`batchGetCache`: issue the chunk's multi-get, map each raw response through
the `value ? JSON.parse(value) : null` line, and append to the accumulated
result (a failure earlier in the loop short-circuits). -/
def bgcStep (remote : RStore) (acc : Except String (List JSVal)) (chunkKeys : List String) :
    Except String (List JSVal) := do
  let result ← acc
  let chunkValues ← chunkKeys.mapM (fun k => readEntry (remote k))
  pure (result ++ chunkValues)

/-- `CachingService.batchGetCache`: chunk the keys at 100, issue one multi-get
per chunk, and concatenate. -/
def batchGetCache (remote : RStore) (keys : List String) : Except String (List JSVal) :=
  (getChunks keys 100).foldl (bgcStep remote) (.ok [])

/-- Number of `asyncMGet` commands one `batchGetCache` call issues: one per
key chunk. -/
def batchGetCacheMgetCalls (keys : List String) : Nat :=
  (getChunks keys 100).length

/-- Number of `asyncMGet` commands a whole `batchProcess` call issues on its
success path with `skipCache = false`: `batchProcessChunk` calls
`batchGetCache` once per 100-element payload chunk. -/
def batchProcessMgetCalls {ι : Type _} (payload : List ι) (cacheKeyFunction : ι → String) : Nat :=
  ((getChunks payload 100).map
    (fun chunk => batchGetCacheMgetCalls (chunk.map cacheKeyFunction))).sum

/-- The `missing` indices of `batchProcessChunk`: positions whose cached entry
is `null`, computed by the map/filter/map pipeline over the indexed cached
list. -/
def missingIndices (cached : List JSVal) : List Nat :=
  ((List.range cached.length).zip cached).filterMap
    (fun p => if p.2 = JSVal.jsnull then some p.1 else none)

/-- The `ttls.map(ttl => this.spreadTtl(ttl))` line of `batchSetCache`, the
two `Math.random()` draws of the `i`-th call supplied by `rnd i`. -/
def spreadTtls (rnd : Nat → Rat × Rat) (ttls : List Rat) : List Rat :=
  (List.range ttls.length).map (fun i => spreadTtl (rnd i).1 (rnd i).2 (ttls.getD i 0))

/-- `CachingService.batchSetCache`: jitter the TTLs, write each (key, value,
jittered TTL) to the local tier, then build the remote `set` commands chunk by
chunk — the `{key: index}` elements are pairs carrying each key's global
index, `chunkValues` recovers the value through that global index, but the
TTL is read at `ttls[index]` where `index` is the position inside the chunk.
Returns (local writes, remote set commands).  Out-of-range list reads (which
cannot occur when the three arguments have equal length) are rendered by
`getD` defaults. -/
def batchSetCache (rnd : Nat → Rat × Rat) (keys : List String) (values : List JSVal)
    (ttls : List Rat) : List SetCmd × List SetCmd :=
  let ttls' := spreadTtls rnd ttls
  let localWrites := (List.range keys.length).map
    (fun i => SetCmd.mk (keys.getD i "") (values.getD i .undef) (ttls'.getD i 0))
  let pairs := (List.range keys.length).map (fun i => (keys.getD i "", i))
  let chunks := getChunks pairs 25
  let sets := (chunks.map (fun chunk =>
    let chunkKeys := chunk.map Prod.fst
    let chunkValues := chunk.map (fun e => values.getD e.2 .undef)
    (List.range chunkKeys.length).map (fun idx =>
      SetCmd.mk (chunkKeys.getD idx "") (chunkValues.getD idx .undef) (ttls'.getD idx 0)))).flatten
  (localWrites, sets)

/-- Observable outcome of one `batchProcessChunk` call: the assembled results
plus the write-back effects on each tier. -/
structure ChunkOutcome where
  results : List JSVal
  localWrites : List SetCmd
  remoteSets : List SetCmd
deriving DecidableEq

/-- `CachingService.batchProcessChunk`: compute the chunk's keys; read them
from the cache (or treat every position as a `null` miss when `skipCache`);
collect the missing indices; populate them through the worker pool — rendered
as an in-order `mapM`, which is what `tiny-async-pool` returns regardless of
completion order — write the populated values back with the nominal `ttl`
for truthy values and `min(ttl, processTtl)` for falsy ones, and assemble the
results: freshly populated values at missing positions, cached values
elsewhere, in input order. -/
def batchProcessChunk {ι : Type _} [Inhabited ι] (rnd : Nat → Rat × Rat) (remote : RStore)
    (payload : List ι) (cacheKeyFunction : ι → String) (handler : ι → Except String JSVal)
    (ttl processTtl : Rat) (skipCache : Bool) : Except String ChunkOutcome := do
  let keys := payload.map cacheKeyFunction
  let cached ←
    if skipCache then pure (List.replicate keys.length JSVal.jsnull)
    else batchGetCache remote keys
  let missing := missingIndices cached
  let values ←
    if missing.length ≠ 0 then (missing.map (fun i => payload.getD i default)).mapM handler
    else pure []
  let writes :=
    if missing.length ≠ 0 then
      batchSetCache rnd
        (((List.range keys.length).zip keys).filterMap
          (fun p => if missing.contains p.1 then some p.2 else none))
        values
        (values.map (fun v => if v.truthy then ttl else min ttl processTtl))
    else ([], [])
  pure ⟨(List.range keys.length).map
      (fun i => if missing.contains i then values.getD (missing.indexOf i) JSVal.undef
        else cached.getD i JSVal.undef),
    writes.1, writes.2⟩

/-- The `while (true) { try ... catch { retries++; if (retries >= 3) throw } }`
loop of `batchProcess`, one chunk at a time: `run retries` is the attempt made
with the retry counter at `retries`.  Returns the outcome together with the
value of the counter after the loop, which on entry at `0` is the total number
of attempts made. -/
def retryChunk (run : Nat → Except String ChunkOutcome) (retries : Nat) :
    Except String ChunkOutcome × Nat :=
  match run retries with
  | .ok v => (.ok v, retries + 1)
  | .error e =>
    if retries + 1 ≥ 3 then (.error e, retries + 1)
    else retryChunk run (retries + 1)
termination_by 3 - retries
decreasing_by omega

/-- One iteration of the chunk loop of `batchProcess`: run the chunk through
the retry loop and append its results (a failure earlier in the loop
short-circuits).  The environment may change between attempts, so the remote
snapshot is indexed by the attempt's retry count. -/
def bpStep {ι : Type _} [Inhabited ι] (rnd : Nat → Rat × Rat) (remotes : Nat → RStore)
    (cacheKeyFunction : ι → String) (handler : ι → Except String JSVal)
    (ttl processTtl : Rat) (skipCache : Bool) (acc : Except String (List JSVal))
    (chunk : List ι) : Except String (List JSVal) := do
  let result ← acc
  let processedChunk ← (retryChunk
    (fun retries => batchProcessChunk rnd (remotes retries) chunk cacheKeyFunction handler
      ttl processTtl skipCache) 0).1
  pure (result ++ processedChunk.results)

/-- `CachingService.batchProcess`: chunk the payload at 100 and process each
chunk through the retry loop, concatenating results; a chunk that exhausts its
retries propagates its failure, discarding the whole call's results. -/
def batchProcess {ι : Type _} [Inhabited ι] (rnd : Nat → Rat × Rat)
    (remotes : Nat → RStore) (payload : List ι) (cacheKeyFunction : ι → String)
    (handler : ι → Except String JSVal) (ttl processTtl : Rat) (skipCache : Bool) :
    Except String (List JSVal) :=
  (getChunks payload 100).foldl
    (bpStep rnd remotes cacheKeyFunction handler ttl processTtl skipCache) (.ok [])

section BatchLemmas

/-- A `mapM` whose function succeeds pointwise is the corresponding `map`
(shared helper). -/
theorem mapM_ok {β γ : Type _} (G : β → Except String γ) (f : β → γ) :
    ∀ l : List β, (∀ a ∈ l, G a = .ok (f a)) → l.mapM G = .ok (l.map f) := by
  intro l h
  induction l with
  | nil => rfl
  | cons a l ih =>
    rw [List.mapM_cons, h a (by simp), ih (fun b hb => h b (by simp [hb]))]
    rfl

/-- `readEntry` on a non-corrupt entry is `readVal` (shared helper). -/
theorem readEntry_eq_ok (e : RemoteEntry) (h : e ≠ .corrupt) :
    readEntry e = .ok (readVal e) := by
  cases e with
  | absent => rfl
  | corrupt => exact absurd rfl h
  | val v => rfl

theorem bgcStep_error (remote : RStore) (e : String) (c : List String) :
    bgcStep remote (.error e) c = .error e := rfl

theorem bgcStep_ok (remote : RStore) (acc : List JSVal) (c : List String) :
    bgcStep remote (.ok acc) c
      = match c.mapM (fun k => readEntry (remote k)) with
        | .ok vs => .ok (acc ++ vs)
        | .error e => .error e := by
  unfold bgcStep
  cases c.mapM (fun k => readEntry (remote k)) <;> rfl

/-- Once the accumulator of the `batchGetCache` fold is a failure it stays a
failure (shared helper). -/
theorem bgcFold_error (remote : RStore) (e : String) :
    ∀ CS : List (List String), CS.foldl (bgcStep remote) (.error e) = .error e := by
  intro CS
  induction CS with
  | nil => rfl
  | cons c CS ih => rw [List.foldl_cons, bgcStep_error]; exact ih

/-- With no corrupt payload among the keys, `batchGetCache` succeeds and
returns one `readVal` per key, in order (shared helper). -/
theorem batchGetCache_clean (remote : RStore) (keys : List String)
    (h : ∀ k ∈ keys, remote k ≠ .corrupt) :
    batchGetCache remote keys = .ok (keys.map (fun k => readVal (remote k))) := by
  unfold batchGetCache
  rw [getChunks_eq_chunksOf (by omega)]
  have H : ∀ (CS : List (List String)) (acc : List JSVal),
      (∀ k ∈ CS.flatten, remote k ≠ .corrupt) →
      CS.foldl (bgcStep remote) (.ok acc)
        = .ok (acc ++ CS.flatten.map (fun k => readVal (remote k))) := by
    intro CS
    induction CS with
    | nil => intro acc _; simp
    | cons c CS ih =>
      intro acc hclean
      have hc : c.mapM (fun k => readEntry (remote k))
          = .ok (c.map (fun k => readVal (remote k))) := by
        apply mapM_ok
        intro a ha
        exact readEntry_eq_ok _ (hclean a (by simp [ha]))
      rw [List.foldl_cons, bgcStep_ok, hc]
      rw [ih (acc ++ c.map (fun k => readVal (remote k))) (fun k hk => hclean k (by simp [hk]))]
      simp [List.map_append, List.append_assoc]
  have := H (chunksOf 100 keys) []
  rw [chunksOf_flatten] at this
  simpa using this (by simpa using h)

/-- A `mapM` over a list containing a failing element fails (shared helper). -/
theorem mapM_error {β γ : Type _} (G : β → Except String γ) :
    ∀ (l : List β) (a : β), a ∈ l → (∃ e, G a = .error e) →
      ∃ e, l.mapM G = .error e := by
  intro l
  induction l with
  | nil => intro a ha; simp at ha
  | cons b l ih =>
    intro a ha ⟨e, he⟩
    rw [List.mapM_cons]
    rcases List.mem_cons.mp ha with rfl | htail
    · exact ⟨e, by rw [he]; rfl⟩
    · cases hb : G b with
      | error eb => exact ⟨eb, rfl⟩
      | ok vb =>
        obtain ⟨e', he'⟩ := ih a htail ⟨e, he⟩
        exact ⟨e', by rw [he']; rfl⟩

/-- A corrupt payload among the keys makes `batchGetCache` fail (shared
helper). -/
theorem batchGetCache_corrupt (remote : RStore) (keys : List String) (k : String)
    (hk : k ∈ keys) (hcorrupt : remote k = .corrupt) :
    ∃ e, batchGetCache remote keys = .error e := by
  unfold batchGetCache
  rw [getChunks_eq_chunksOf (by omega)]
  have H : ∀ (CS : List (List String)) (acc : List JSVal),
      (∃ k ∈ CS.flatten, remote k = .corrupt) →
      ∃ e : String, CS.foldl (bgcStep remote) (.ok acc) = .error e := by
    intro CS
    induction CS with
    | nil => intro acc ⟨k', hk', _⟩; simp at hk'
    | cons c CS ih =>
      intro acc ⟨k', hk', hc'⟩
      rw [List.foldl_cons, bgcStep_ok]
      have hk2 : k' ∈ c ∨ k' ∈ CS.flatten := by
        rw [List.flatten_cons, List.mem_append] at hk'
        exact hk'
      rcases hk2 with hin | hin
      · obtain ⟨e, he⟩ := mapM_error (fun k => readEntry (remote k)) c k' hin
          ⟨"SyntaxError: Unexpected token in JSON", by
            show readEntry (remote k') = _
            rw [hc']
            rfl⟩
        rw [he]
        exact ⟨e, bgcFold_error remote e CS⟩
      · cases hmap : c.mapM (fun k => readEntry (remote k)) with
        | error eb => exact ⟨eb, bgcFold_error remote eb CS⟩
        | ok vb => exact ih (acc ++ vb) ⟨k', hin, hc'⟩
  have := H (chunksOf 100 keys) [] ⟨k, by rwa [chunksOf_flatten], hcorrupt⟩
  simpa using this

end BatchLemmas

section AssemblyLemmas

theorem exceptBind_ok {β γ : Type _} (a : β) (f : β → Except String γ) :
    ((.ok a : Except String β) >>= f) = f a := rfl

theorem exceptBind_error {β γ : Type _} (e : String) (f : β → Except String γ) :
    ((.error e : Except String β) >>= f) = .error e := rfl

theorem exceptBind_pure {β γ : Type _} (a : β) (f : β → Except String γ) :
    ((pure a : Except String β) >>= f) = f a := rfl

/-- An index is missing exactly when it is in range and its cached entry is
`null` (shared helper). -/
theorem mem_missingIndices (cached : List JSVal) (i : Nat) :
    i ∈ missingIndices cached ↔ i < cached.length ∧ cached.getD i .undef = .jsnull := by
  unfold missingIndices
  rw [List.mem_filterMap]
  constructor
  · rintro ⟨p, hp, hf⟩
    obtain ⟨j, hj, hpj⟩ := List.mem_iff_getElem.mp hp
    have hjlen : j < cached.length := by
      simp [List.length_zip, List.length_range] at hj
      omega
    rw [List.getElem_zip] at hpj
    have hp1 : p.1 = j := by
      rw [← hpj]
      simp [List.getElem_range]
    have hp2 : p.2 = cached.get ⟨j, hjlen⟩ := by
      rw [← hpj]
      simp [List.get_eq_getElem]
    by_cases hnull : p.2 = JSVal.jsnull
    · rw [if_pos hnull] at hf
      have hij : j = i := by rw [← hp1]; exact Option.some.inj hf
      subst hij
      refine ⟨hjlen, ?_⟩
      rw [List.getD_eq_getElem _ _ hjlen]
      rw [hp2] at hnull
      exact hnull
    · rw [if_neg hnull] at hf
      cases hf
  · rintro ⟨hi, hv⟩
    refine ⟨(i, cached.getD i JSVal.undef), ?_,
      by rw [if_pos (show (i, cached.getD i JSVal.undef).2 = JSVal.jsnull from hv)]⟩
    apply List.mem_iff_getElem.mpr
    have hlen : i < ((List.range cached.length).zip cached).length := by
      simp [List.length_zip, List.length_range]
      omega
    refine ⟨i, hlen, ?_⟩
    rw [List.getElem_zip, List.getD_eq_getElem _ _ hi]
    simp [List.getElem_range]

/-- `l.getD (l.indexOf a) d = a` for a member `a` (shared helper). -/
theorem getD_indexOf {β : Type _} [DecidableEq β] (l : List β) (a d : β) (h : a ∈ l) :
    l.getD (l.indexOf a) d = a := by
  rw [List.getD_eq_getElem _ _ (List.indexOf_lt_length.mpr h)]
  exact List.getElem_indexOf _

/-- Reference value used to state the batch claims: what the amended claim
predicts for one input — the cached value when the remote tier holds a
non-null deserializable value for the input's key, the handler's result
otherwise (an absent key and a stored `null` both count as a miss and are
repopulated). -/
def expectedBatchValue {ι : Type _} (remote : RStore) (cacheKeyFunction : ι → String)
    (hf : ι → JSVal) (x : ι) : JSVal :=
  match remote (cacheKeyFunction x) with
  | .val v => if v = .jsnull then hf x else v
  | _ => hf x

/-- The result-assembly line of `batchProcessChunk` on the clean path equals
the per-item expected value, in input order (shared helper). -/
theorem batchAssemble_eq {ι : Type _} [Inhabited ι] (remote : RStore) (keyFn : ι → String)
    (hf : ι → JSVal) (payload : List ι) (C : List JSVal) (missing : List Nat)
    (values : List JSVal)
    (hC : C = (payload.map keyFn).map (fun k => readVal (remote k)))
    (hm : missing = missingIndices C)
    (hv : values = (missing.map (fun i => payload.getD i default)).map hf)
    (h : ∀ x ∈ payload, remote (keyFn x) ≠ .corrupt) :
    (List.range (payload.map keyFn).length).map
      (fun i => if missing.contains i then values.getD (missing.indexOf i) JSVal.undef
        else C.getD i JSVal.undef)
    = payload.map (expectedBatchValue remote keyFn hf) := by
  subst hm
  subst hv
  subst hC
  apply List.ext_getElem
  · simp [List.length_map, List.length_range]
  · intro i h1 h2
    have hi : i < payload.length := by
      simp [List.length_map] at h2
      exact h2
    simp only [List.getElem_map, List.getElem_range]
    have hCi : ((payload.map keyFn).map (fun k => readVal (remote k))).getD i JSVal.undef
        = readVal (remote (keyFn payload[i])) := by
      rw [List.getD_eq_getElem _ _ (by simp [List.length_map]; exact hi)]
      simp only [List.getElem_map]
    have hmemiff :
        i ∈ missingIndices ((payload.map keyFn).map (fun k => readVal (remote k)))
          ↔ ((payload.map keyFn).map (fun k => readVal (remote k))).getD i JSVal.undef
              = JSVal.jsnull := by
      rw [mem_missingIndices]
      constructor
      · exact fun hx => hx.2
      · refine fun hx => ⟨?_, hx⟩
        simp [List.length_map]
        exact hi
    by_cases hmem : i ∈ missingIndices ((payload.map keyFn).map (fun k => readVal (remote k)))
    · have hcont :
          (missingIndices ((payload.map keyFn).map (fun k => readVal (remote k)))).contains i
            = true := by
        simpa using hmem
      rw [if_pos hcont]
      have hidx := List.indexOf_lt_length.mpr hmem
      have hvlen :
          ((((missingIndices ((payload.map keyFn).map (fun k => readVal (remote k)))).map
            (fun i => payload.getD i default)).map hf)).length
          = (missingIndices ((payload.map keyFn).map (fun k => readVal (remote k)))).length := by
        simp [List.length_map]
      rw [List.getD_eq_getElem _ _ (by omega)]
      simp only [List.getElem_map]
      rw [List.getElem_indexOf hidx]
      rw [List.getD_eq_getElem _ _ hi]
      have hnull := hmemiff.mp hmem
      rw [hCi] at hnull
      cases hentry : remote (keyFn payload[i]) with
      | absent =>
        rw [show expectedBatchValue remote keyFn hf payload[i] = hf payload[i] from by
          unfold expectedBatchValue
          rw [hentry]]
      | corrupt => exact absurd hentry (h _ (List.getElem_mem hi))
      | val v =>
        rw [hentry] at hnull
        simp only [readVal] at hnull
        rw [show expectedBatchValue remote keyFn hf payload[i]
            = if v = JSVal.jsnull then hf payload[i] else v from by
          unfold expectedBatchValue
          rw [hentry]]
        rw [if_pos hnull]
    · have hncont :
          ¬((missingIndices ((payload.map keyFn).map (fun k => readVal (remote k)))).contains i
            = true) := by
        simpa using hmem
      rw [if_neg hncont]
      have hnot := fun hcon => hmem (hmemiff.mpr hcon)
      rw [hCi]
      rw [hCi] at hnot
      cases hentry : remote (keyFn payload[i]) with
      | absent =>
        rw [hentry] at hnot
        simp only [readVal] at hnot
        exact absurd trivial hnot
      | corrupt => exact absurd hentry (h _ (List.getElem_mem hi))
      | val v =>
        rw [hentry] at hnot
        simp only [readVal] at hnot
        simp only [readVal]
        rw [show expectedBatchValue remote keyFn hf payload[i]
            = if v = JSVal.jsnull then hf payload[i] else v from by
          unfold expectedBatchValue
          rw [hentry]]
        rw [if_neg hnot]

end AssemblyLemmas

section PipelineLemmas

/-- On a clean store (no corrupt payloads among the chunk's keys) and a
succeeding handler, `batchProcessChunk` succeeds and assembles exactly the
per-item expected values, in input order (shared helper). -/
theorem batchProcessChunk_clean {ι : Type _} [Inhabited ι] (rnd : Nat → Rat × Rat)
    (remote : RStore) (payload : List ι) (keyFn : ι → String) (hf : ι → JSVal)
    (ttl processTtl : Rat)
    (h : ∀ x ∈ payload, remote (keyFn x) ≠ .corrupt) :
    ∃ out : ChunkOutcome,
      batchProcessChunk rnd remote payload keyFn (fun x => .ok (hf x)) ttl processTtl false
        = .ok out
      ∧ out.results = payload.map (expectedBatchValue remote keyFn hf) := by
  have hkeys : ∀ k ∈ payload.map keyFn, remote k ≠ .corrupt := by
    intro k hk
    obtain ⟨x, hx, rfl⟩ := List.mem_map.mp hk
    exact h x hx
  unfold batchProcessChunk
  rw [if_neg (show ¬(false = true) from by simp)]
  rw [batchGetCache_clean remote _ hkeys]
  simp only [exceptBind_ok]
  by_cases hmiss :
      (missingIndices ((payload.map keyFn).map (fun k => readVal (remote k)))).length ≠ 0
  · rw [if_pos hmiss]
    rw [mapM_ok (fun x => Except.ok (hf x)) hf _ (fun a _ => rfl)]
    simp only [exceptBind_ok]
    refine ⟨_, rfl, ?_⟩
    exact batchAssemble_eq remote keyFn hf payload _ _ _ rfl rfl rfl h
  · rw [if_neg hmiss]
    simp only [exceptBind_pure]
    refine ⟨_, rfl, ?_⟩
    have hmlist : missingIndices ((payload.map keyFn).map (fun k => readVal (remote k))) = [] :=
      List.length_eq_zero.mp (not_ne_iff.mp hmiss)
    exact batchAssemble_eq remote keyFn hf payload _ _ [] rfl rfl (by rw [hmlist]; rfl) h

/-- A run that succeeds at retry count `r` makes the loop return at once with
the counter bumped to `r + 1` (shared helper). -/
theorem retryChunk_run_ok (run : Nat → Except String ChunkOutcome) (r : Nat)
    (out : ChunkOutcome) (h : run r = .ok out) :
    retryChunk run r = (.ok out, r + 1) := by
  rw [retryChunk, h]

/-- A run that fails with the retry counter about to reach 3 re-raises and
stops (shared helper). -/
theorem retryChunk_run_error_last (run : Nat → Except String ChunkOutcome) (r : Nat)
    (e : String) (h : run r = .error e) (hr : r + 1 ≥ 3) :
    retryChunk run r = (.error e, r + 1) := by
  rw [retryChunk, h]
  show (if r + 1 ≥ 3 then ((Except.error e : Except String ChunkOutcome), r + 1)
    else retryChunk run (r + 1)) = _
  rw [if_pos hr]

/-- A run that fails below the retry bound hands over to the next attempt
(shared helper). -/
theorem retryChunk_run_error_then (run : Nat → Except String ChunkOutcome) (r : Nat)
    (e : String) (h : run r = .error e) (hr : r + 1 < 3)
    (res : Except String ChunkOutcome × Nat) (hres : retryChunk run (r + 1) = res) :
    retryChunk run r = res := by
  rw [retryChunk, h]
  show (if r + 1 ≥ 3 then ((Except.error e : Except String ChunkOutcome), r + 1)
    else retryChunk run (r + 1)) = res
  rw [if_neg (by omega)]
  exact hres

/-- Three failing attempts: the loop makes exactly 3 attempts, then re-raises
the last failure (shared helper). -/
theorem retryChunk_three_errors (run : Nat → Except String ChunkOutcome)
    (e0 e1 e2 : String) (h0 : run 0 = .error e0) (h1 : run 1 = .error e1)
    (h2 : run 2 = .error e2) :
    retryChunk run 0 = (.error e2, 3) := by
  apply retryChunk_run_error_then run 0 e0 h0 (by omega)
  apply retryChunk_run_error_then run 1 e1 h1 (by omega)
  exact retryChunk_run_error_last run 2 e2 h2 (by omega)

/-- First success at attempt index `a < 3` after failures: the loop returns
that success having made `a + 1` attempts (shared helper). -/
theorem retryChunk_first_ok (run : Nat → Except String ChunkOutcome) (a : Nat)
    (out : ChunkOutcome) (ha : a < 3) (hok : run a = .ok out)
    (hprev : ∀ b, b < a → ∃ e, run b = .error e) :
    retryChunk run 0 = (.ok out, a + 1) := by
  interval_cases a
  · exact retryChunk_run_ok run 0 out hok
  · obtain ⟨e0, h0⟩ := hprev 0 (by omega)
    apply retryChunk_run_error_then run 0 e0 h0 (by omega)
    exact retryChunk_run_ok run 1 out hok
  · obtain ⟨e0, h0⟩ := hprev 0 (by omega)
    obtain ⟨e1, h1⟩ := hprev 1 (by omega)
    apply retryChunk_run_error_then run 0 e0 h0 (by omega)
    apply retryChunk_run_error_then run 1 e1 h1 (by omega)
    exact retryChunk_run_ok run 2 out hok

theorem bpStep_error {ι : Type _} [Inhabited ι] (rnd : Nat → Rat × Rat)
    (remotes : Nat → RStore) (keyFn : ι → String) (handler : ι → Except String JSVal)
    (ttl processTtl : Rat) (skipCache : Bool) (e : String) (chunk : List ι) :
    bpStep rnd remotes keyFn handler ttl processTtl skipCache (.error e) chunk = .error e := rfl

/-- Once the accumulator of the `batchProcess` fold is a failure it stays a
failure (shared helper). -/
theorem bpFold_error {ι : Type _} [Inhabited ι] (rnd : Nat → Rat × Rat)
    (remotes : Nat → RStore) (keyFn : ι → String) (handler : ι → Except String JSVal)
    (ttl processTtl : Rat) (skipCache : Bool) (e : String) :
    ∀ CS : List (List ι),
      CS.foldl (bpStep rnd remotes keyFn handler ttl processTtl skipCache) (.error e)
        = .error e := by
  intro CS
  induction CS with
  | nil => rfl
  | cons c CS ih => rw [List.foldl_cons, bpStep_error]; exact ih

theorem bpStep_ok {ι : Type _} [Inhabited ι] (rnd : Nat → Rat × Rat)
    (remotes : Nat → RStore) (keyFn : ι → String) (handler : ι → Except String JSVal)
    (ttl processTtl : Rat) (skipCache : Bool) (acc : List JSVal) (chunk : List ι) :
    bpStep rnd remotes keyFn handler ttl processTtl skipCache (.ok acc) chunk
      = match (retryChunk (fun retries => batchProcessChunk rnd (remotes retries) chunk keyFn
          handler ttl processTtl skipCache) 0).1 with
        | .ok out => .ok (acc ++ out.results)
        | .error e => .error e := by
  unfold bpStep
  cases (retryChunk (fun retries => batchProcessChunk rnd (remotes retries) chunk keyFn
    handler ttl processTtl skipCache) 0).1 <;> rfl

end PipelineLemmas

section BatchProcessLemmas

theorem bpStep_ok_of {ι : Type _} [Inhabited ι] (rnd : Nat → Rat × Rat)
    (remotes : Nat → RStore) (keyFn : ι → String) (handler : ι → Except String JSVal)
    (ttl processTtl : Rat) (skipCache : Bool) (acc : List JSVal) (chunk : List ι)
    (out : ChunkOutcome)
    (hret : (retryChunk (fun retries => batchProcessChunk rnd (remotes retries) chunk keyFn
      handler ttl processTtl skipCache) 0).1 = .ok out) :
    bpStep rnd remotes keyFn handler ttl processTtl skipCache (.ok acc) chunk
      = .ok (acc ++ out.results) := by
  unfold bpStep
  rw [hret]
  rfl

theorem bpStep_error_of {ι : Type _} [Inhabited ι] (rnd : Nat → Rat × Rat)
    (remotes : Nat → RStore) (keyFn : ι → String) (handler : ι → Except String JSVal)
    (ttl processTtl : Rat) (skipCache : Bool) (acc : List JSVal) (chunk : List ι)
    (e : String)
    (hret : (retryChunk (fun retries => batchProcessChunk rnd (remotes retries) chunk keyFn
      handler ttl processTtl skipCache) 0).1 = .error e) :
    bpStep rnd remotes keyFn handler ttl processTtl skipCache (.ok acc) chunk
      = .error e := by
  unfold bpStep
  rw [hret]
  rfl

/-- Members of a chunk are members of the original list (shared helper). -/
theorem mem_of_mem_chunksOf {α : Type _} {size : Nat} {l c : List α} {x : α}
    (hc : c ∈ chunksOf size l) (hx : x ∈ c) : x ∈ l := by
  rw [← chunksOf_flatten size l]
  exact List.mem_flatten.mpr ⟨c, hc, hx⟩

/-- On a clean store and a succeeding handler, `batchProcess` succeeds with
the expected value for every item, in order (shared helper). -/
theorem batchProcess_clean {ι : Type _} [Inhabited ι] (rnd : Nat → Rat × Rat)
    (remote : RStore) (payload : List ι) (keyFn : ι → String) (hf : ι → JSVal)
    (ttl processTtl : Rat)
    (h : ∀ x ∈ payload, remote (keyFn x) ≠ .corrupt) :
    batchProcess rnd (fun _ => remote) payload keyFn (fun x => .ok (hf x)) ttl processTtl false
      = .ok (payload.map (expectedBatchValue remote keyFn hf)) := by
  unfold batchProcess
  rw [getChunks_eq_chunksOf (by omega)]
  have H : ∀ (CS : List (List ι)) (acc : List JSVal),
      (∀ c ∈ CS, ∀ x ∈ c, remote (keyFn x) ≠ .corrupt) →
      CS.foldl (bpStep rnd (fun _ => remote) keyFn (fun x => .ok (hf x)) ttl processTtl false)
        (.ok acc)
        = .ok (acc ++ CS.flatten.map (expectedBatchValue remote keyFn hf)) := by
    intro CS
    induction CS with
    | nil => intro acc _; simp
    | cons c CS ih =>
      intro acc hclean
      obtain ⟨out, hout, hres⟩ :=
        batchProcessChunk_clean rnd remote c keyFn hf ttl processTtl (hclean c (by simp))
      have hret : (retryChunk (fun retries => batchProcessChunk rnd ((fun _ => remote) retries)
          c keyFn (fun x => .ok (hf x)) ttl processTtl false) 0).1 = .ok out := by
        rw [retryChunk_run_ok _ 0 out hout]
      rw [List.foldl_cons, bpStep_ok_of rnd (fun _ => remote) keyFn (fun x => .ok (hf x))
        ttl processTtl false acc c out hret]
      rw [ih (acc ++ out.results) (fun c' hc' => hclean c' (by simp [hc']))]
      rw [hres]
      simp [List.map_append, List.append_assoc]
  have := H (chunksOf 100 payload) []
  rw [chunksOf_flatten] at this
  simpa using this (fun c hc x hx => h x (mem_of_mem_chunksOf hc hx))

/-- A 250-item batch issues exactly 3 multi-get commands (shared helper). -/
theorem batchProcessMgetCalls_250 {ι : Type _} (payload : List ι) (keyFn : ι → String)
    (hlen : payload.length = 250) : batchProcessMgetCalls payload keyFn = 3 := by
  unfold batchProcessMgetCalls batchGetCacheMgetCalls
  rw [getChunks_eq_chunksOf (by omega)]
  obtain ⟨hchunks, hl1, hl2, hl3⟩ := chunksOf_100_of_length_250 payload hlen
  rw [hchunks]
  have single : ∀ c : List ι, 0 < c.length → c.length ≤ 100 →
      (getChunks (c.map keyFn) 100).length = 1 := by
    intro c h1 h2
    rw [getChunks_eq_chunksOf (by omega),
      chunksOf_eq_single (c.map keyFn) (by simpa using h1) (by simpa using h2)]
    rfl
  simp only [List.map_cons, List.map_nil]
  rw [single _ (by omega) (by omega), single _ (by omega) (by omega),
    single _ (by omega) (by omega)]
  rfl

end BatchProcessLemmas

/-! ## Claim theorems -/

/-- C9: for every ttl at or above the threshold 300 and every outcome of the
random draws (drawn from `[0, 1)` as `Math.random` does), `spreadTtl` returns
`ttl` perturbed by a signed offset whose absolute value is at most 10% of
`ttl`; for every ttl below 300 it returns `ttl` unchanged. -/
theorem C9_spreadTtl_bounds (r1 r2 ttl : Rat)
    (h1 : 0 ≤ r1) (h1' : r1 < 1) (h2 : 0 ≤ r2) (h2' : r2 < 1) :
    (300 ≤ ttl →
      |spreadTtl r1 r2 ttl - ttl| ≤ ttl / 10
      ∧ ttl - ttl / 10 ≤ spreadTtl r1 r2 ttl
      ∧ spreadTtl r1 r2 ttl ≤ ttl + ttl / 10)
    ∧ (ttl < 300 → spreadTtl r1 r2 ttl = ttl) := by
  constructor
  · intro hge
    have habs := spreadTtl_abs_sub_le r1 r2 ttl h1 h1' h2 h2' (by linarith)
    obtain ⟨hl, hr⟩ := abs_le.mp habs
    exact ⟨habs, by linarith, by linarith⟩
  · intro hlt
    exact spreadTtl_below r1 r2 ttl hlt

/-- Witness for C9: `spreadTtl` at ttl 1000 lies in `[900, 1100]`, and at
ttl 100 (below the threshold) is exactly 100. -/
theorem C9_witness :
    (900 ≤ spreadTtl (1/2) (1/3) 1000 ∧ spreadTtl (1/2) (1/3) 1000 ≤ 1100)
    ∧ spreadTtl (1/2) (1/3) 100 = 100 := by
  obtain ⟨habs, hlow, hhigh⟩ :=
    (C9_spreadTtl_bounds (1/2) (1/3) 1000 (by norm_num) (by norm_num) (by norm_num)
      (by norm_num)).1 (by norm_num)
  refine ⟨⟨by linarith, by linarith⟩, ?_⟩
  exact (C9_spreadTtl_bounds (1/2) (1/3) 100 (by norm_num) (by norm_num) (by norm_num)
    (by norm_num)).2 (by norm_num)

/-- C10: a falsy (but present) local value is skipped by the two-tier read
`getCache`, which falls through to the remote tier, while `getOrSetCache`
treats the same value as a local hit, returns it at once and writes
nothing. -/
theorem C10_falsy_local (localStore : LStore) (remote : RStore) (key : String)
    (populate : Except String JSVal) (remoteTtl : Rat) (localTtlArg : Option Rat)
    (hfalsy : (localStore key).truthy = false) (hdef : localStore key ≠ .undef) :
    getCache localStore remote key = getCacheRemote remote key
    ∧ (getOrSetCache localStore remote key populate remoteTtl localTtlArg).value
        = .ok (localStore key)
    ∧ (getOrSetCache localStore remote key populate remoteTtl localTtlArg).localWrites = []
    ∧ (getOrSetCache localStore remote key populate remoteTtl localTtlArg).remoteWrites = [] := by
  refine ⟨?_, ?_, ?_, ?_⟩
  · unfold getCache
    rw [if_neg (by rw [hfalsy]; exact Bool.false_ne_true)]
  · unfold getOrSetCache
    rw [if_pos hdef]
  · unfold getOrSetCache
    rw [if_pos hdef]
  · unfold getOrSetCache
    rw [if_pos hdef]

/-- Witness for C10: local value `0` for key `k` — `getCache` falls through
to the remote tier while `getOrSetCache` returns the cached `0` with no
writes. -/
theorem C10_witness :
    getCache (fun _ => JSVal.num 0) (fun _ => RemoteEntry.absent) "k"
      = getCacheRemote (fun _ => RemoteEntry.absent) "k"
    ∧ (getOrSetCache (fun _ => JSVal.num 0) (fun _ => RemoteEntry.absent) "k"
        (.ok (JSVal.num 7)) 600 none).value = .ok (JSVal.num 0)
    ∧ (getOrSetCache (fun _ => JSVal.num 0) (fun _ => RemoteEntry.absent) "k"
        (.ok (JSVal.num 7)) 600 none).localWrites = [] :=
  ⟨(C10_falsy_local (fun _ => JSVal.num 0) (fun _ => RemoteEntry.absent) "k"
      (.ok (JSVal.num 7)) 600 none (by decide) (by decide)).1,
   (C10_falsy_local (fun _ => JSVal.num 0) (fun _ => RemoteEntry.absent) "k"
      (.ok (JSVal.num 7)) 600 none (by decide) (by decide)).2.1,
   (C10_falsy_local (fun _ => JSVal.num 0) (fun _ => RemoteEntry.absent) "k"
      (.ok (JSVal.num 7)) 600 none (by decide) (by decide)).2.2.1⟩

/-- C2: `executeWithPendingPromise` (`runExclusive`) with no pending entry for
the key registers one, runs the operation, removes the entry regardless of
outcome — afterwards the table holds no entry for the key — and re-raises an
operation failure unchanged; with an existing pending entry it returns that
entry's result. -/
theorem C2_runExclusive_spec (table : PTable) (key : String) (op : Except String JSVal) :
    (table key = none →
        (executeWithPendingPromise table key op).result = op
      ∧ (executeWithPendingPromise table key op).duringTable key = some op
      ∧ (executeWithPendingPromise table key op).finalTable key = none
      ∧ ∀ e, op = .error e → (executeWithPendingPromise table key op).result = .error e)
    ∧ (∀ pending, table key = some pending →
        (executeWithPendingPromise table key op).result = pending) := by
  constructor
  · intro hnone
    unfold executeWithPendingPromise
    rw [hnone]
    exact ⟨rfl, by simp, by simp, fun e he => by rw [← he]⟩
  · intro pending hsome
    unfold executeWithPendingPromise
    rw [hsome]

/-- Witness for C2, at a concrete empty table and a concrete occupied table:
a failing operation is re-raised and its entry removed; an existing entry's
result is returned. -/
theorem C2_witness :
    (executeWithPendingPromise (fun _ => none) "caching:get:k" (.error "boom")).result
      = .error "boom"
    ∧ (executeWithPendingPromise (fun _ => none) "caching:get:k" (.error "boom")).finalTable
        "caching:get:k" = none
    ∧ (executeWithPendingPromise
        (fun k => if k = "caching:get:k" then some (.ok (JSVal.num 1)) else none)
        "caching:get:k" (.error "boom")).result = .ok (JSVal.num 1) :=
  ⟨((C2_runExclusive_spec (fun _ => none) "caching:get:k" (.error "boom")).1 rfl).1,
   ((C2_runExclusive_spec (fun _ => none) "caching:get:k" (.error "boom")).1 rfl).2.2.1,
   (C2_runExclusive_spec
      (fun k => if k = "caching:get:k" then some (.ok (JSVal.num 1)) else none)
      "caching:get:k" (.error "boom")).2 (.ok (JSVal.num 1)) (by decide)⟩

/-- C3 counterexample: a stored payload that fails to deserialize makes the
remote-tier read and the batch multi-get raise the `JSON.parse` failure — at
this concrete store, neither read returns the "absent" result
(`.ok JSVal.undef`) the claim predicts for the key. -/
theorem C3_counterexample :
    getCacheRemote (fun k => if k = "bad" then RemoteEntry.corrupt else RemoteEntry.absent) "bad"
      = .error "SyntaxError: Unexpected token in JSON"
    ∧ batchGetCache (fun k => if k = "bad" then RemoteEntry.corrupt else RemoteEntry.absent)
        ["bad"] = .error "SyntaxError: Unexpected token in JSON"
    ∧ getCacheRemote (fun k => if k = "bad" then RemoteEntry.corrupt else RemoteEntry.absent)
        "bad" ≠ .ok JSVal.undef := by
  refine ⟨rfl, by decide, ?_⟩
  intro hcon
  rw [show getCacheRemote (fun k => if k = "bad" then RemoteEntry.corrupt else RemoteEntry.absent)
      "bad" = .error "SyntaxError: Unexpected token in JSON" from rfl] at hcon
  cases hcon

/-- C3 (amended): a payload that fails to deserialize is not downgraded to
"absent": `getCacheRemote` raises the parse failure, and a batch multi-get
containing the key fails as a whole. -/
theorem C3_corrupt_read_raises (remote : RStore) (key : String) (keys : List String)
    (hcorrupt : remote key = .corrupt) :
    getCacheRemote remote key = .error "SyntaxError: Unexpected token in JSON"
    ∧ (key ∈ keys → ∃ e, batchGetCache remote keys = .error e) := by
  constructor
  · unfold getCacheRemote
    rw [hcorrupt]
  · intro hmem
    exact batchGetCache_corrupt remote keys key hmem hcorrupt

/-- Witness for C3 (amended), at a concrete all-corrupt store. -/
theorem C3_witness :
    getCacheRemote (fun _ => RemoteEntry.corrupt) "bad"
      = .error "SyntaxError: Unexpected token in JSON"
    ∧ (∃ e, batchGetCache (fun _ => RemoteEntry.corrupt) ["good", "bad"] = .error e) :=
  ⟨(C3_corrupt_read_raises (fun _ => RemoteEntry.corrupt) "bad" ["good", "bad"] rfl).1,
   (C3_corrupt_read_raises (fun _ => RemoteEntry.corrupt) "bad" ["good", "bad"] rfl).2
     (by decide)⟩

/-- On a double miss with a succeeding populate, `getOrSetCache` returns the
populated value and issues the conditional writes (shared helper). -/
theorem getOrSetCache_double_miss (localStore : LStore) (remote : RStore) (key : String)
    (v : JSVal) (remoteTtl : Rat) (localTtlArg : Option Rat)
    (hlocalMiss : localStore key = .undef)
    (hremoteMiss : remote key = .absent ∨ remote key = .val .jsnull) :
    getOrSetCache localStore remote key (.ok v) remoteTtl localTtlArg
      = ⟨.ok v,
          if effectiveLocalTtl remoteTtl localTtlArg > 0
            then [⟨key, v, effectiveLocalTtl remoteTtl localTtlArg⟩] else [],
          if remoteTtl > 0 then [⟨key, v, remoteTtl⟩] else []⟩ := by
  have hg : getCacheRemote remote key = .ok JSVal.undef
      ∨ getCacheRemote remote key = .ok JSVal.jsnull := by
    rcases hremoteMiss with hmiss | hmiss
    · left
      unfold getCacheRemote
      rw [hmiss]
    · right
      unfold getCacheRemote
      rw [hmiss]
  unfold getOrSetCache
  rw [if_neg (show ¬localStore key ≠ JSVal.undef from by rw [hlocalMiss]; simp)]
  split
  next e heq =>
    rcases hg with hgg | hgg <;> (rw [hgg] at heq; cases heq)
  next cached heq =>
    have hc : cached = JSVal.undef ∨ cached = JSVal.jsnull := by
      rcases hg with hgg | hgg
      · rw [hgg] at heq
        exact Or.inl (Except.ok.inj heq).symm
      · rw [hgg] at heq
        exact Or.inr (Except.ok.inj heq).symm
    rw [if_neg (show ¬(cached ≠ JSVal.undef ∧ cached ≠ JSVal.jsnull) from by
      rcases hc with rfl | rfl <;> simp)]

/-- C4 counterexample: passing `localTtl = 0` with `remoteTtl = 600` on a
double miss does NOT skip the local write — `!localTtl` treats `0` like an
omitted argument, defaults it to `remoteTtl / 2 = 300`, and the local write
is issued with TTL 300. -/
theorem C4_counterexample :
    (getOrSetCache (fun _ => JSVal.undef) (fun _ => RemoteEntry.absent) "k"
        (.ok (JSVal.num 7)) 600 (some 0)).localWrites
      = [⟨"k", JSVal.num 7, 300⟩]
    ∧ (getOrSetCache (fun _ => JSVal.undef) (fun _ => RemoteEntry.absent) "k"
        (.ok (JSVal.num 7)) 600 (some 0)).localWrites ≠ [] := by
  have heff : effectiveLocalTtl 600 (some 0) = 300 := by
    simp only [effectiveLocalTtl]
    norm_num
  have hloc : (getOrSetCache (fun _ => JSVal.undef) (fun _ => RemoteEntry.absent) "k"
      (.ok (JSVal.num 7)) 600 (some 0)).localWrites = [⟨"k", JSVal.num 7, 300⟩] := by
    rw [getOrSetCache_double_miss (fun _ => JSVal.undef) (fun _ => RemoteEntry.absent) "k"
      (JSVal.num 7) 600 (some 0) rfl (Or.inl rfl)]
    show (if effectiveLocalTtl 600 (some 0) > 0
        then [(⟨"k", JSVal.num 7, effectiveLocalTtl 600 (some 0)⟩ : SetCmd)]
        else ([] : List SetCmd))
      = [(⟨"k", JSVal.num 7, 300⟩ : SetCmd)]
    rw [heff, if_pos (by norm_num)]
  refine ⟨hloc, ?_⟩
  rw [hloc]
  simp

/-- C4 (amended): after a miss on both tiers and successful population, the
local write is issued if and only if the effective local TTL is positive,
where an omitted `localTtl` and a passed `0` both default to `remoteTtl / 2`
(so only a non-positive effective TTL — in particular a negative `localTtl` —
skips the local write); the remote write is issued if and only if
`remoteTtl > 0`. -/
theorem C4_write_conditions (localStore : LStore) (remote : RStore) (key : String)
    (v : JSVal) (remoteTtl : Rat) (localTtlArg : Option Rat)
    (hlocalMiss : localStore key = .undef)
    (hremoteMiss : remote key = .absent ∨ remote key = .val .jsnull) :
    (getOrSetCache localStore remote key (.ok v) remoteTtl localTtlArg).value = .ok v
    ∧ (getOrSetCache localStore remote key (.ok v) remoteTtl localTtlArg).localWrites
        = (if effectiveLocalTtl remoteTtl localTtlArg > 0
            then [⟨key, v, effectiveLocalTtl remoteTtl localTtlArg⟩] else [])
    ∧ (getOrSetCache localStore remote key (.ok v) remoteTtl localTtlArg).remoteWrites
        = (if remoteTtl > 0 then [⟨key, v, remoteTtl⟩] else [])
    ∧ effectiveLocalTtl remoteTtl none = remoteTtl / 2
    ∧ effectiveLocalTtl remoteTtl (some 0) = remoteTtl / 2
    ∧ (∀ t : Rat, t ≠ 0 → effectiveLocalTtl remoteTtl (some t) = t) := by
  have hmain := getOrSetCache_double_miss localStore remote key v remoteTtl localTtlArg
    hlocalMiss hremoteMiss
  refine ⟨by rw [hmain], by rw [hmain], by rw [hmain], rfl, ?_, ?_⟩
  · simp only [effectiveLocalTtl]
    simp
  · intro t ht
    simp only [effectiveLocalTtl]
    rw [if_neg ht]

/-- Witness for C4 (amended): with `remoteTtl = 600` and an explicit negative
`localTtl = -5`, the local write is skipped while the remote write is issued;
the defaults evaluate to `300`. -/
theorem C4_witness :
    (getOrSetCache (fun _ => JSVal.undef) (fun _ => RemoteEntry.absent) "k"
        (.ok (JSVal.num 7)) 600 (some (-5))).localWrites = []
    ∧ (getOrSetCache (fun _ => JSVal.undef) (fun _ => RemoteEntry.absent) "k"
        (.ok (JSVal.num 7)) 600 (some (-5))).remoteWrites = [⟨"k", JSVal.num 7, 600⟩]
    ∧ effectiveLocalTtl 600 none = 300
    ∧ effectiveLocalTtl 600 (some 0) = 300 := by
  obtain ⟨hval, hlocal, hremote, hdefnone, hdefzero, hkept⟩ :=
    C4_write_conditions (fun _ => JSVal.undef) (fun _ => RemoteEntry.absent) "k"
      (JSVal.num 7) 600 (some (-5)) rfl (Or.inl rfl)
  refine ⟨?_, ?_, ?_, ?_⟩
  · rw [hlocal]
    rw [if_neg (show ¬effectiveLocalTtl 600 (some (-5)) > 0 from by
      rw [hkept (-5) (by norm_num)]
      norm_num)]
  · rw [hremote, if_pos (by norm_num)]
  · rw [hdefnone]
    norm_num
  · rw [hdefzero]
    norm_num

/-- A non-wildcard key is deleted from both tiers and reported
unconditionally (shared helper). -/
theorem deleteInCache_exact (keysCmd : String → List String) (ls : LStore) (rs : RStore)
    (key : String) (hk : key.data.contains '*' = false) :
    deleteInCache keysCmd ls rs key = ([key], eraseLocal ls key, eraseRemote rs key) := by
  unfold deleteInCache
  rw [if_neg (by rw [hk]; exact Bool.false_ne_true)]

/-- C7 counterexample: deleting the same absent key twice — the second call
reports the key again (`["mykey"]`, one key), not zero keys, because
`deleteInCache` pushes the key unconditionally without consulting the store's
deletion count. -/
theorem C7_counterexample :
    (deleteInCache (fun _ => []) (fun _ => JSVal.undef) (fun _ => RemoteEntry.absent)
        "mykey").1 = ["mykey"]
    ∧ (deleteInCache (fun _ => [])
        (deleteInCache (fun _ => []) (fun _ => JSVal.undef) (fun _ => RemoteEntry.absent)
          "mykey").2.1
        (deleteInCache (fun _ => []) (fun _ => JSVal.undef) (fun _ => RemoteEntry.absent)
          "mykey").2.2
        "mykey").1 = ["mykey"]
    ∧ (["mykey"] : List String).length = 1 := by
  refine ⟨?_, ?_, rfl⟩
  · rw [deleteInCache_exact (fun _ => []) (fun _ => JSVal.undef) (fun _ => RemoteEntry.absent)
      "mykey" (by decide)]
  · rw [deleteInCache_exact (fun _ => [])
      (deleteInCache (fun _ => []) (fun _ => JSVal.undef) (fun _ => RemoteEntry.absent)
        "mykey").2.1
      (deleteInCache (fun _ => []) (fun _ => JSVal.undef) (fun _ => RemoteEntry.absent)
        "mykey").2.2
      "mykey" (by decide)]

/-- C7 (amended): for every non-wildcard key, `deleteInCache` deletes the key
in both tiers and returns the one-element list `[key]` — the key is reported
whether or not it was present, so the list has at most one key and a second
delete in succession succeeds and again reports `[key]` (one key, not zero;
not an error). -/
theorem C7_delete_exact (keysCmd : String → List String) (localStore : LStore)
    (remote : RStore) (key : String) (hkey : key.data.contains '*' = false) :
    (deleteInCache keysCmd localStore remote key).1 = [key]
    ∧ (deleteInCache keysCmd localStore remote key).1.length ≤ 1
    ∧ (deleteInCache keysCmd localStore remote key).2.1 key = .undef
    ∧ (deleteInCache keysCmd localStore remote key).2.2 key = .absent
    ∧ (deleteInCache keysCmd
        (deleteInCache keysCmd localStore remote key).2.1
        (deleteInCache keysCmd localStore remote key).2.2 key).1 = [key] := by
  have hmain : ∀ (ls : LStore) (rs : RStore),
      deleteInCache keysCmd ls rs key = ([key], eraseLocal ls key, eraseRemote rs key) :=
    fun ls rs => deleteInCache_exact keysCmd ls rs key hkey
  refine ⟨by rw [hmain], by rw [hmain]; simp, ?_, ?_, by rw [hmain, hmain]⟩
  · rw [hmain]
    show eraseLocal localStore key key = .undef
    unfold eraseLocal
    rw [if_pos rfl]
  · rw [hmain]
    show eraseRemote remote key key = .absent
    unfold eraseRemote
    rw [if_pos rfl]

/-- Witness for C7 (amended), at a concrete key and empty stores. -/
theorem C7_witness :
    (deleteInCache (fun _ => []) (fun _ => JSVal.undef) (fun _ => RemoteEntry.absent)
        "tokens:abc").1 = ["tokens:abc"]
    ∧ (deleteInCache (fun _ => []) (fun _ => JSVal.undef) (fun _ => RemoteEntry.absent)
        "tokens:abc").2.2 "tokens:abc" = .absent :=
  ⟨(C7_delete_exact (fun _ => []) (fun _ => JSVal.undef) (fun _ => RemoteEntry.absent)
      "tokens:abc" (by decide)).1,
   (C7_delete_exact (fun _ => []) (fun _ => JSVal.undef) (fun _ => RemoteEntry.absent)
      "tokens:abc" (by decide)).2.2.2.1⟩

/-- C8: on an `ESDTTransfer` transaction, `tryInvalidateTokenBalance` deletes
`tokens:<sender>` and `tokens:<receiver>` in both tiers, but returns the empty
list — the accumulated `invalidatedKeys` is discarded by the unconditional
`return []` — instead of the list of removed keys the claim (and the
accumulation itself) intends; a transaction with any other function name is a
no-op returning the empty list. -/
theorem C8_invalidate_returns_empty (keysCmd : String → List String) (localStore : LStore)
    (remote : RStore) (transaction : ShardTransaction)
    (hsender : ("tokens:" ++ transaction.sender).data.contains '*' = false)
    (hreceiver : ("tokens:" ++ transaction.receiver).data.contains '*' = false)
    (hfn : transaction.dataFunctionName = some "ESDTTransfer") :
    (tryInvalidateTokenBalance keysCmd localStore remote transaction).1 = []
    ∧ (tryInvalidateTokenBalance keysCmd localStore remote transaction).2.1
        ("tokens:" ++ transaction.sender) = .undef
    ∧ (tryInvalidateTokenBalance keysCmd localStore remote transaction).2.1
        ("tokens:" ++ transaction.receiver) = .undef
    ∧ (tryInvalidateTokenBalance keysCmd localStore remote transaction).2.2
        ("tokens:" ++ transaction.sender) = .absent
    ∧ (tryInvalidateTokenBalance keysCmd localStore remote transaction).2.2
        ("tokens:" ++ transaction.receiver) = .absent
    ∧ (∀ transaction' : ShardTransaction,
        transaction'.dataFunctionName ≠ some "ESDTTransfer" →
        tryInvalidateTokenBalance keysCmd localStore remote transaction'
          = ([], localStore, remote)) := by
  have hmain : tryInvalidateTokenBalance keysCmd localStore remote transaction
      = ([],
         eraseLocal (eraseLocal localStore ("tokens:" ++ transaction.sender))
           ("tokens:" ++ transaction.receiver),
         eraseRemote (eraseRemote remote ("tokens:" ++ transaction.sender))
           ("tokens:" ++ transaction.receiver)) := by
    unfold tryInvalidateTokenBalance
    rw [if_pos hfn, deleteInCache_exact keysCmd _ _ _ hsender]
    simp only []
    rw [deleteInCache_exact keysCmd _ _ _ hreceiver]
  refine ⟨by rw [hmain], ?_, ?_, ?_, ?_, ?_⟩
  · rw [hmain]
    show eraseLocal (eraseLocal localStore ("tokens:" ++ transaction.sender))
      ("tokens:" ++ transaction.receiver) ("tokens:" ++ transaction.sender) = .undef
    unfold eraseLocal
    split
    · rfl
    · rw [if_pos rfl]
  · rw [hmain]
    show eraseLocal (eraseLocal localStore ("tokens:" ++ transaction.sender))
      ("tokens:" ++ transaction.receiver) ("tokens:" ++ transaction.receiver) = .undef
    unfold eraseLocal
    rw [if_pos rfl]
  · rw [hmain]
    show eraseRemote (eraseRemote remote ("tokens:" ++ transaction.sender))
      ("tokens:" ++ transaction.receiver) ("tokens:" ++ transaction.sender) = .absent
    unfold eraseRemote
    split
    · rfl
    · rw [if_pos rfl]
  · rw [hmain]
    show eraseRemote (eraseRemote remote ("tokens:" ++ transaction.sender))
      ("tokens:" ++ transaction.receiver) ("tokens:" ++ transaction.receiver) = .absent
    unfold eraseRemote
    rw [if_pos rfl]
  · intro transaction' hfn'
    unfold tryInvalidateTokenBalance
    rw [if_neg hfn']

/-- Witness for C8, at a concrete `ESDTTransfer` transaction: the two token
keys are removed from both tiers, yet the reported list is empty. -/
theorem C8_witness :
    (tryInvalidateTokenBalance (fun _ => []) (fun _ => JSVal.num 3)
        (fun _ => RemoteEntry.val (JSVal.num 3))
        ⟨"erd1aaa", "erd1bbb", some "ESDTTransfer"⟩).1 = []
    ∧ (tryInvalidateTokenBalance (fun _ => []) (fun _ => JSVal.num 3)
        (fun _ => RemoteEntry.val (JSVal.num 3))
        ⟨"erd1aaa", "erd1bbb", some "ESDTTransfer"⟩).2.2 "tokens:erd1aaa" = .absent :=
  ⟨(C8_invalidate_returns_empty (fun _ => []) (fun _ => JSVal.num 3)
      (fun _ => RemoteEntry.val (JSVal.num 3)) ⟨"erd1aaa", "erd1bbb", some "ESDTTransfer"⟩
      (by decide) (by decide) rfl).1,
   (C8_invalidate_returns_empty (fun _ => []) (fun _ => JSVal.num 3)
      (fun _ => RemoteEntry.val (JSVal.num 3)) ⟨"erd1aaa", "erd1bbb", some "ESDTTransfer"⟩
      (by decide) (by decide) rfl).2.2.2.1⟩

/-- C1 counterexample: a key whose remote payload deserializes to `null` IS
held by the cache, yet `batchProcess` treats it as a miss and returns the
handler's populated value (`5`), not the cached `null` the claim predicts. -/
theorem C1_counterexample :
    batchProcess (fun _ => (0, 0))
        (fun _ => fun k => if k = "k" then RemoteEntry.val JSVal.jsnull else RemoteEntry.absent)
        ["k"] (fun s => s) (fun _ => .ok (JSVal.num 5)) 600 60 false
      = .ok [JSVal.num 5]
    ∧ (fun k => if k = "k" then RemoteEntry.val JSVal.jsnull else RemoteEntry.absent) "k"
        = RemoteEntry.val JSVal.jsnull
    ∧ JSVal.num 5 ≠ JSVal.jsnull := by
  refine ⟨?_, rfl, by decide⟩
  have h := batchProcess_clean (fun _ => ((0 : Rat), (0 : Rat)))
    (fun k => if k = "k" then RemoteEntry.val JSVal.jsnull else RemoteEntry.absent)
    ["k"] (fun s => s) (fun _ => JSVal.num 5) 600 60 (by decide)
  exact h

/-- C1 (amended): on a clean store, `batchProcess` (with the cache consulted)
returns one value per item in the original input order — the cached value
when the remote tier held a non-null value for the item's key, the populate
handler's result otherwise (a stored `null`, like an absent key, counts as a
miss) — and a batch of 250 items is chunked at 100, issuing exactly 3 remote
multi-get commands. -/
theorem C1_batch_order_and_chunking {ι : Type _} [Inhabited ι] (rnd : Nat → Rat × Rat)
    (remote : RStore) (items : List ι) (cacheKeyFunction : ι → String) (hf : ι → JSVal)
    (ttl processTtl : Rat)
    (hclean : ∀ x ∈ items, remote (cacheKeyFunction x) ≠ .corrupt) :
    batchProcess rnd (fun _ => remote) items cacheKeyFunction (fun x => .ok (hf x))
        ttl processTtl false
      = .ok (items.map (expectedBatchValue remote cacheKeyFunction hf))
    ∧ (items.map (expectedBatchValue remote cacheKeyFunction hf)).length = items.length
    ∧ (items.length = 250 → batchProcessMgetCalls items cacheKeyFunction = 3) :=
  ⟨batchProcess_clean rnd remote items cacheKeyFunction hf ttl processTtl hclean,
   by simp,
   fun hlen => batchProcessMgetCalls_250 items cacheKeyFunction hlen⟩

/-- Witness for C1 (amended): items `[a, b, c]` with `b` a cache hit and
`a, c` misses come back as `[f(a), cached(b), f(c)]`, in order. -/
theorem C1_witness :
    batchProcess (fun _ => ((0 : Rat), (0 : Rat)))
        (fun _ => fun k => if k = "b" then RemoteEntry.val (JSVal.num 2) else RemoteEntry.absent)
        ["a", "b", "c"] (fun s => s) (fun s => .ok (JSVal.str s)) 600 60 false
      = .ok [JSVal.str "a", JSVal.num 2, JSVal.str "c"] := by
  have h := (C1_batch_order_and_chunking (fun _ => ((0 : Rat), (0 : Rat)))
    (fun k => if k = "b" then RemoteEntry.val (JSVal.num 2) else RemoteEntry.absent)
    ["a", "b", "c"] (fun s => s) (fun s => JSVal.str s) 600 60 (by decide)).1
  exact h

/-- C6: a chunk whose processing fails is retried up to 3 attempts in total:
when every attempt fails, the loop makes exactly 3 attempts and the batch
call re-raises the failure with no partial results; when an attempt within
the 3 succeeds, its results are contributed normally with the attempt count
recorded. -/
theorem C6_chunk_retry {ι : Type _} [Inhabited ι] (rnd : Nat → Rat × Rat)
    (remotes : Nat → RStore) (payload : List ι) (cacheKeyFunction : ι → String)
    (handler : ι → Except String JSVal) (ttl processTtl : Rat) (skipCache : Bool)
    (hne : payload ≠ []) (hlen : payload.length ≤ 100) :
    ((∀ a, ∃ e, batchProcessChunk rnd (remotes a) payload cacheKeyFunction handler
        ttl processTtl skipCache = .error e) →
      ∃ e, retryChunk (fun retries => batchProcessChunk rnd (remotes retries) payload
          cacheKeyFunction handler ttl processTtl skipCache) 0 = (.error e, 3)
        ∧ batchProcess rnd remotes payload cacheKeyFunction handler ttl processTtl skipCache
            = .error e)
    ∧ (∀ a out, a < 3 →
        batchProcessChunk rnd (remotes a) payload cacheKeyFunction handler ttl processTtl
          skipCache = .ok out →
        (∀ b, b < a → ∃ e, batchProcessChunk rnd (remotes b) payload cacheKeyFunction handler
          ttl processTtl skipCache = .error e) →
        retryChunk (fun retries => batchProcessChunk rnd (remotes retries) payload
            cacheKeyFunction handler ttl processTtl skipCache) 0 = (.ok out, a + 1)
        ∧ batchProcess rnd remotes payload cacheKeyFunction handler ttl processTtl skipCache
            = .ok out.results) := by
  have hchunks : getChunks payload 100 = [payload] := by
    rw [getChunks_eq_chunksOf (by omega)]
    exact chunksOf_eq_single payload (List.length_pos.mpr hne) hlen
  have hbp : batchProcess rnd remotes payload cacheKeyFunction handler ttl processTtl skipCache
      = bpStep rnd remotes cacheKeyFunction handler ttl processTtl skipCache (.ok []) payload := by
    unfold batchProcess
    rw [hchunks]
    rfl
  constructor
  · intro hall
    obtain ⟨e0, h0⟩ := hall 0
    obtain ⟨e1, h1⟩ := hall 1
    obtain ⟨e2, h2⟩ := hall 2
    have hretry := retryChunk_three_errors
      (fun retries => batchProcessChunk rnd (remotes retries) payload cacheKeyFunction handler
        ttl processTtl skipCache) e0 e1 e2 h0 h1 h2
    refine ⟨e2, hretry, ?_⟩
    rw [hbp]
    exact bpStep_error_of rnd remotes cacheKeyFunction handler ttl processTtl skipCache
      [] payload e2 (by rw [hretry])
  · intro a out ha hok hprev
    have hretry := retryChunk_first_ok
      (fun retries => batchProcessChunk rnd (remotes retries) payload cacheKeyFunction handler
        ttl processTtl skipCache) a out ha hok hprev
    refine ⟨hretry, ?_⟩
    rw [hbp]
    rw [bpStep_ok_of rnd remotes cacheKeyFunction handler ttl processTtl skipCache
      [] payload out (by rw [hretry])]
    rw [List.nil_append]

/-- Witness for C6: a handler that always fails makes the loop attempt the
chunk exactly 3 times, after which the batch call raises. -/
theorem C6_witness :
    ∃ e, retryChunk (fun _retries => batchProcessChunk (fun _ => ((0 : Rat), (0 : Rat)))
        (fun _ => RemoteEntry.absent) ["x"] (fun s => s)
        (fun _ => .error "boom") 600 60 false) 0 = (.error e, 3)
      ∧ batchProcess (fun _ => ((0 : Rat), (0 : Rat))) (fun _ => fun _ => RemoteEntry.absent)
          ["x"] (fun s => s) (fun _ => .error "boom") 600 60 false = .error e :=
  (C6_chunk_retry (fun _ => ((0 : Rat), (0 : Rat))) (fun _ => fun _ => RemoteEntry.absent)
      ["x"] (fun s => s) (fun _ => .error "boom") 600 60 false (by decide) (by decide)).1
    (fun a => ⟨"boom", by decide⟩)

section WriteBackLemmas

theorem getD_take {α : Type _} (l : List α) (n i : Nat) (h1 : i < n) (h2 : i < l.length)
    (d : α) : (l.take n).getD i d = l.getD i d := by
  rw [List.getD_eq_getElem _ _ (by simp [List.length_take]; omega),
    List.getD_eq_getElem _ _ h2]
  exact List.getElem_take l

theorem getD_drop {α : Type _} (l : List α) (n i : Nat) (h : n + i < l.length) (d : α) :
    (l.drop n).getD i d = l.getD (n + i) d := by
  rw [List.getD_eq_getElem _ _ (by simp [List.length_drop]; omega),
    List.getD_eq_getElem _ _ h]
  exact List.getElem_drop l

/-- Reading position `i` of the per-chunk emitted commands: the element comes
from position `i` of the flat list, but the second argument of the emitter is
only the position of `i` inside its chunk, `i % size` (shared helper). -/
theorem chunked_flat_getD {α β : Type _} (size : Nat) (hsize : 0 < size) (g : α → Nat → β)
    (da : α) (d : β) :
    ∀ (n : Nat) (l : List α), l.length ≤ n → ∀ i, i < l.length →
      (((chunksOf size l).map (fun chunk => (List.range chunk.length).map
          (fun idx => g (chunk.getD idx da) idx))).flatten).getD i d
        = g (l.getD i da) (i % size) := by
  intro n
  induction n with
  | zero =>
    intro l hl i hi
    omega
  | succ n ih =>
    intro l hl i hi
    have hlne : l ≠ [] := by
      intro h
      rw [h] at hi
      simp at hi
    rw [chunksOf_step hsize l hlne, List.map_cons, List.flatten_cons]
    have hALen : ((List.range (l.take size).length).map
        (fun idx => g ((l.take size).getD idx da) idx)).length = min size l.length := by
      simp [List.length_map, List.length_range, List.length_take]
    by_cases hcase : i < size
    · rw [List.getD_append _ _ _ _ (by rw [hALen]; omega)]
      rw [List.getD_eq_getElem _ _ (by rw [hALen]; omega)]
      simp only [List.getElem_map, List.getElem_range]
      rw [getD_take l size i hcase hi, Nat.mod_eq_of_lt hcase]
    · have hsz : size ≤ i := by omega
      rw [List.getD_append_right _ _ _ _ (by rw [hALen]; omega)]
      rw [hALen]
      have hmin : min size l.length = size := by omega
      rw [hmin]
      have hrec := ih (l.drop size) (by simp [List.length_drop]; omega) (i - size)
        (by simp [List.length_drop]; omega)
      rw [hrec]
      rw [getD_drop l size (i - size) (by omega) da]
      have harith : size + (i - size) = i := by omega
      rw [harith]
      have hmod : (i - size) % size = i % size := (Nat.mod_eq_sub_mod hsz).symm
      rw [hmod]

/-- The remote `set` commands of `batchSetCache`, with the chunk loop exposed
(shared helper). -/
theorem batchSetCache_sets (rnd : Nat → Rat × Rat) (keys : List String) (values : List JSVal)
    (ttls : List Rat) :
    (batchSetCache rnd keys values ttls).2
      = ((getChunks ((List.range keys.length).map (fun i => (keys.getD i "", i))) 25).map
          (fun chunk =>
            (List.range (chunk.map Prod.fst).length).map (fun idx =>
              SetCmd.mk ((chunk.map Prod.fst).getD idx "")
                ((chunk.map (fun e => values.getD e.2 .undef)).getD idx .undef)
                ((spreadTtls rnd ttls).getD idx 0)))).flatten := rfl

/-- One chunk's emitted commands, in terms of the chunk's pairs directly
(shared helper). -/
theorem perChunk_eq (values : List JSVal) (ttls' : List Rat) (chunk : List (String × Nat)) :
    (List.range (chunk.map Prod.fst).length).map (fun idx =>
        SetCmd.mk ((chunk.map Prod.fst).getD idx "")
          ((chunk.map (fun e => values.getD e.2 .undef)).getD idx .undef)
          (ttls'.getD idx 0))
      = (List.range chunk.length).map (fun idx =>
          SetCmd.mk (chunk.getD idx ("", 0)).1
            (values.getD (chunk.getD idx ("", 0)).2 .undef)
            (ttls'.getD idx 0)) := by
  apply List.ext_getElem
  · simp [List.length_map, List.length_range]
  · intro i h1 h2
    have hi : i < chunk.length := by
      simp [List.length_map, List.length_range] at h2
      exact h2
    simp only [List.getElem_map, List.getElem_range]
    have hk : ((chunk.map Prod.fst).getD i "") = (chunk.getD i ("", 0)).1 := by
      rw [List.getD_eq_getElem _ _ (by simp [List.length_map]; exact hi), List.getElem_map,
        List.getD_eq_getElem _ _ hi]
    have hv : ((chunk.map (fun e => values.getD e.2 .undef)).getD i .undef)
        = values.getD (chunk.getD i ("", 0)).2 .undef := by
      rw [List.getD_eq_getElem _ _ (by simp [List.length_map]; exact hi), List.getElem_map,
        List.getD_eq_getElem _ _ hi]
    rw [hk, hv]

/-- The `i`-th jittered TTL (shared helper). -/
theorem spreadTtls_getD (rnd : Nat → Rat × Rat) (ttls : List Rat) (i : Nat)
    (hi : i < ttls.length) :
    (spreadTtls rnd ttls).getD i 0 = spreadTtl (rnd i).1 (rnd i).2 (ttls.getD i 0) := by
  unfold spreadTtls
  rw [List.getD_eq_getElem _ _ (by simp [List.length_map, List.length_range]; omega)]
  simp only [List.getElem_map, List.getElem_range]

/-- The pair list `{key: index}` of `batchSetCache` read at `i` (shared
helper). -/
theorem pairs_getD (keys : List String) (i : Nat) (hi : i < keys.length) :
    ((List.range keys.length).map (fun j => (keys.getD j "", j))).getD i ("", 0)
      = (keys.getD i "", i) := by
  rw [List.getD_eq_getElem _ _ (by simp [List.length_map, List.length_range]; omega)]
  simp only [List.getElem_map, List.getElem_range]

/-- The `i`-th remote `set` command of `batchSetCache`: key and value are
taken at the global index `i`, but the TTL it carries is the jittered TTL at
position `i % 25` — the index inside the chunk (shared helper). -/
theorem batchSetCache_sets_getD (rnd : Nat → Rat × Rat) (keys : List String)
    (values : List JSVal) (ttls : List Rat) (i : Nat) (hi : i < keys.length)
    (hmod : i % 25 < ttls.length) :
    (batchSetCache rnd keys values ttls).2.getD i ⟨"", .undef, 0⟩
      = SetCmd.mk (keys.getD i "") (values.getD i .undef)
          (spreadTtl (rnd (i % 25)).1 (rnd (i % 25)).2 (ttls.getD (i % 25) 0)) := by
  rw [batchSetCache_sets]
  rw [getChunks_eq_chunksOf (by omega)]
  have hmap : ((chunksOf 25 ((List.range keys.length).map (fun j => (keys.getD j "", j)))).map
        (fun chunk =>
          (List.range (chunk.map Prod.fst).length).map (fun idx =>
            SetCmd.mk ((chunk.map Prod.fst).getD idx "")
              ((chunk.map (fun e => values.getD e.2 .undef)).getD idx .undef)
              ((spreadTtls rnd ttls).getD idx 0))))
      = ((chunksOf 25 ((List.range keys.length).map (fun j => (keys.getD j "", j)))).map
        (fun chunk =>
          (List.range chunk.length).map (fun idx =>
            SetCmd.mk (chunk.getD idx ("", 0)).1
              (values.getD (chunk.getD idx ("", 0)).2 .undef)
              ((spreadTtls rnd ttls).getD idx 0)))) := by
    apply List.map_congr_left
    intro chunk _
    exact perChunk_eq values (spreadTtls rnd ttls) chunk
  rw [hmap]
  have hlen : ((List.range keys.length).map (fun j => (keys.getD j "", j))).length
      = keys.length := by
    simp [List.length_map, List.length_range]
  rw [chunked_flat_getD 25 (by omega)
    (fun e idx => SetCmd.mk e.1 (values.getD e.2 .undef) ((spreadTtls rnd ttls).getD idx 0))
    ("", 0) ⟨"", .undef, 0⟩
    ((List.range keys.length).map (fun j => (keys.getD j "", j))).length
    ((List.range keys.length).map (fun j => (keys.getD j "", j)))
    (le_refl _) i (by rw [hlen]; exact hi)]
  rw [pairs_getD keys i hi]
  rw [spreadTtls_getD rnd ttls (i % 25) hmod]

end WriteBackLemmas

/-- C5: the TTL carried by a remote `set` command in the batch write-back
path.  The per-value TTLs are computed as the source does — nominal `600` for
a truthy value, `min 600 60 = 60` for a falsy one — and jitter then applies;
but for the written key at global index 25 (the first key of the second
25-element chunk) the issued command carries the jittered TTL read at the
chunk-local index 0, i.e. a jitter of `600` (at least `540`), not the `60`
the claim requires for its falsy value, for which the jittered per-value TTL
would be exactly `60`. -/
theorem C5_ttl_misindexed (rnd : Nat → Rat × Rat) (keys : List String) (values : List JSVal)
    (h1 : 0 ≤ (rnd 0).1) (h1' : (rnd 0).1 < 1) (h2 : 0 ≤ (rnd 0).2) (h2' : (rnd 0).2 < 1)
    (hlen : values.length = keys.length) (hgt : 25 < keys.length)
    (hfalsy : (values.getD 25 JSVal.undef).truthy = false)
    (htruthy : (values.getD 0 JSVal.undef).truthy = true) :
    ((batchSetCache rnd keys values
        (values.map (fun v => if v.truthy then (600 : Rat) else min 600 60))).2.getD 25
        ⟨"", .undef, 0⟩).key = keys.getD 25 ""
    ∧ ((batchSetCache rnd keys values
        (values.map (fun v => if v.truthy then (600 : Rat) else min 600 60))).2.getD 25
        ⟨"", .undef, 0⟩).value = values.getD 25 .undef
    ∧ ((batchSetCache rnd keys values
        (values.map (fun v => if v.truthy then (600 : Rat) else min 600 60))).2.getD 25
        ⟨"", .undef, 0⟩).ttl = spreadTtl (rnd 0).1 (rnd 0).2 600
    ∧ 540 ≤ ((batchSetCache rnd keys values
        (values.map (fun v => if v.truthy then (600 : Rat) else min 600 60))).2.getD 25
        ⟨"", .undef, 0⟩).ttl
    ∧ ((batchSetCache rnd keys values
        (values.map (fun v => if v.truthy then (600 : Rat) else min 600 60))).2.getD 25
        ⟨"", .undef, 0⟩).ttl ≠ 60
    ∧ (values.map (fun v => if v.truthy then (600 : Rat) else min 600 60)).getD 25 0 = 60
    ∧ spreadTtl (rnd 25).1 (rnd 25).2
        ((values.map (fun v => if v.truthy then (600 : Rat) else min 600 60)).getD 25 0)
      = 60 := by
  have h25 : (25 : Nat) % 25 = 0 := Nat.mod_self 25
  have hvlen : 25 < values.length := by omega
  have hTTlen : (values.map (fun v => if v.truthy then (600 : Rat) else min 600 60)).length
      = values.length := by simp [List.length_map]
  have hmod : 25 % 25
      < (values.map (fun v => if v.truthy then (600 : Rat) else min 600 60)).length := by
    rw [h25, hTTlen]
    omega
  have hcmd := batchSetCache_sets_getD rnd keys values
    (values.map (fun v => if v.truthy then (600 : Rat) else min 600 60)) 25 hgt hmod
  rw [h25] at hcmd
  have hTT0 : (values.map (fun v => if v.truthy then (600 : Rat) else min 600 60)).getD 0 0
      = 600 := by
    rw [List.getD_eq_getElem _ _ (by rw [hTTlen]; omega), List.getElem_map]
    rw [show values[0] = values.getD 0 JSVal.undef from
      (List.getD_eq_getElem values JSVal.undef (by omega)).symm]
    rw [if_pos htruthy]
  rw [hTT0] at hcmd
  have hTT25 : (values.map (fun v => if v.truthy then (600 : Rat) else min 600 60)).getD 25 0
      = 60 := by
    rw [List.getD_eq_getElem _ _ (by rw [hTTlen]; omega), List.getElem_map]
    rw [show values[25] = values.getD 25 JSVal.undef from
      (List.getD_eq_getElem values JSVal.undef (by omega)).symm]
    rw [if_neg (by rw [hfalsy]; exact Bool.false_ne_true)]
    norm_num [min_def]
  have hbound : 540 ≤ spreadTtl (rnd 0).1 (rnd 0).2 600 := by
    have habs := spreadTtl_abs_sub_le (rnd 0).1 (rnd 0).2 600 h1 h1' h2 h2' (by norm_num)
    obtain ⟨hl, hr⟩ := abs_le.mp habs
    linarith
  refine ⟨by rw [hcmd], by rw [hcmd], by rw [hcmd], ?_, ?_, hTT25, ?_⟩
  · rw [hcmd]
    exact hbound
  · rw [hcmd]
    show spreadTtl (rnd 0).1 (rnd 0).2 600 ≠ 60
    intro hcon
    rw [hcon] at hbound
    norm_num at hbound
  · rw [hTT25]
    exact spreadTtl_below _ _ 60 (by norm_num)

/-- Witness for C5, at a concrete 26-key batch (25 truthy values, one falsy
value at index 25) and the concrete draws `(0, 0)`. -/
theorem C5_witness :
    ((batchSetCache (fun _ => ((0 : Rat), (0 : Rat))) (List.replicate 26 "k")
        (List.replicate 25 (JSVal.num 1) ++ [JSVal.num 0])
        ((List.replicate 25 (JSVal.num 1) ++ [JSVal.num 0]).map
          (fun v => if v.truthy then (600 : Rat) else min 600 60))).2.getD 25
        ⟨"", .undef, 0⟩).ttl = spreadTtl 0 0 600
    ∧ ((batchSetCache (fun _ => ((0 : Rat), (0 : Rat))) (List.replicate 26 "k")
        (List.replicate 25 (JSVal.num 1) ++ [JSVal.num 0])
        ((List.replicate 25 (JSVal.num 1) ++ [JSVal.num 0]).map
          (fun v => if v.truthy then (600 : Rat) else min 600 60))).2.getD 25
        ⟨"", .undef, 0⟩).ttl ≠ 60
    ∧ spreadTtl 0 0
        (((List.replicate 25 (JSVal.num 1) ++ [JSVal.num 0]).map
          (fun v => if v.truthy then (600 : Rat) else min 600 60)).getD 25 0) = 60 := by
  obtain ⟨hkey, hval, httl, hge, hne, hTT25, hclaim⟩ :=
    C5_ttl_misindexed (fun _ => ((0 : Rat), (0 : Rat))) (List.replicate 26 "k")
      (List.replicate 25 (JSVal.num 1) ++ [JSVal.num 0])
      (le_refl 0) (by norm_num) (le_refl 0) (by norm_num)
      (by simp) (by simp) (by decide) (by decide)
  exact ⟨httl, hne, hclaim⟩
